import Mathlib

/-!
Verification development for the xray-sdk telemetry client.

The definitions below are a shallow embedding of the SDK source:

* `Trace` methods (`src/packages/xray-sdk/src/trace/Trace.ts`) become pure
  state-transition functions over a `TraceWorld` record.  The world collects
  the observable effects of a method call: the events handed to
  `eventUploader.addEvent` and the blob tasks handed to
  `dataUploader.upload`.  `randomUUID()` draws are modelled by an explicit
  generator `gen : Nat -> String` together with a draw index, and
  `Date.now()` by an explicit `now : Nat` argument.  JavaScript exceptions
  are modelled with `Except String`: a method that can raise a `TypeError`
  (a property access on a `null`/`undefined` options argument) returns
  `.error`, everything else returns `.ok`.  A `null`/`undefined` argument
  is the `none` case of an `Option` (the typed record is the `some` case).
* `MemoryStorage` (`src/packages/xray-sdk/src/storage/MemoryStorage.ts`) and
  `DiskStorage` become explicit records holding the entry map, the
  insertion-ordered eviction list and the tracked byte count.  Disk I/O is
  modelled by its effect on the in-memory registry; `data : String` stands
  for the byte buffer and `data.length` for its size.
* `BatchQueue` (`src/packages/xray-sdk/src/queue/BatchQueue.ts`) becomes a
  record with the buffered events, the interval flag and the
  `isProcessing` flag; a whole flush (snapshot, handler run with events
  added concurrently, success or failure path) is one transition.
* `EventUploader.handleFlush` becomes a function from the outcomes of its
  three effectful operations (spool write, ingest, spool delete) to the
  performed actions and the thrown-or-returned result.
* `BaseTracer` defaults, `createTrace` and the disk-to-memory storage
  fallback are translated from the `BaseTracer` class in the same file.
-/

/-! ## JavaScript-style values and metadata -/

/-- Recursive tagged union for arbitrary user metadata values
(string | number | boolean | null | list | map), as used for the
`Record<string, any>` metadata payloads of the SDK. -/
inductive JValue where
  | null
  | bool (b : Bool)
  | num (n : Int)
  | str (s : String)
  | arr (elems : List JValue)
  | obj (fields : List (String × JValue))

/-- Metadata object: a JavaScript object literal, written as its ordered
field list.  In object-literal semantics a later field overrides an
earlier one with the same name. -/
abbrev Meta := List (String × JValue)

/-! ## Event model (src/packages/xray-sdk/src/types.ts)

Only the variants constructed by the `Trace`/`BaseTracer` paths are
needed: `trace-start`, `trace-success`, `trace-failure` and `step`.
The literal `status` fields (`"success"`, `"failure"`) and the `type`
tags are encoded by the constructor. -/

/-- Artifact type tag: `"input" | "output"`; the JavaScript `null` tag of
minimal mode is the `none` case of the surrounding `Option`. -/
inductive ArtifactType where
  | input
  | output
deriving DecidableEq

/-- Artifact reference carried by an emitted step event:
`{ dataId; type: "input" | "output" | null }`. -/
structure EventArtifact where
  dataId : String
  type : Option ArtifactType
deriving DecidableEq

/-- Events emitted by the tracer into the event uploader. -/
inductive Event where
  | traceStart (traceId projectId : String) (metadata : Meta) (createdAt : Nat)
  | traceSuccess (traceId projectId : String) (metadata successMetadata : Meta)
      (createdAt endedAt : Nat)
  | traceFailure (traceId projectId : String) (metadata failureMetadata : Meta)
      (createdAt endedAt : Nat)
  | step (stepId traceId projectId stepName : String) (stepNumber : Int)
      (artifacts : List EventArtifact) (metadata : Meta) (timestamp : Nat)

/-- Blob upload task submitted to `dataUploader.upload(traceId, data, key,
dataId, metadata)` by `Trace.dataId`. -/
structure BlobTask where
  traceId : String
  data : JValue
  key : String
  dataId : String
  metadata : Option Meta

/-! ## Trace state and world -/

/-- Mutable state of one `Trace` instance (class fields of `Trace` in
`Trace.ts`, without the uploader references and the debug logger). -/
structure Trace where
  traceId : String
  projectId : String
  enabled : Bool
  currentStepNumber : Int
  ended : Bool

/-- A `Trace` together with the observable effects of its method calls:
the next `randomUUID()` draw index, the events handed to
`eventUploader.addEvent` (in call order) and the blob tasks handed to
`dataUploader.upload` (in call order). -/
structure TraceWorld where
  trace : Trace
  genIdx : Nat
  events : List Event
  blobTasks : List BlobTask

/-! ## Options records (src/packages/xray-sdk/src/types.ts) -/

/-- Artifact reference supplied by the caller to `step`; the source reads
`a.type ?? null`, so the tag is optional at runtime. -/
structure StepArtifactRef where
  dataId : String
  type : Option ArtifactType

/-- `StepOptions`. -/
structure StepOptions where
  stepName : String
  stepNumber : Option Int
  artifacts : Option (List StepArtifactRef)
  metadata : Option Meta

/-- A JavaScript `Error` object restricted to the fields the SDK reads:
`message` and the optional `stack`. -/
structure ErrObj where
  message : String
  stack : Option String

/-- `ErrorOptions.error`: `Error | string`. -/
inductive ErrArg where
  | errObj (e : ErrObj)
  | str (s : String)

/-- `ErrorOptions`. -/
structure ErrorOptions where
  error : ErrArg
  metadata : Option Meta

/-- `EndOptions`. -/
structure EndOptions where
  metadata : Option Meta

/-- One artifact of `capture`: `{ data; key }`. -/
structure CaptureArtifact where
  data : JValue
  key : String

/-- `CaptureOptions`. -/
structure CaptureOptions where
  stepName : String
  artifacts : List CaptureArtifact
  metadata : Option Meta

/-- `TraceOptions` accepted by `createTrace`. -/
structure TraceOptions where
  metadata : Option Meta

/-! ## Trace methods (src/packages/xray-sdk/src/trace/Trace.ts)

Each method is split into the total transition it performs on the happy
path (`...Run`) and the user-facing wrapper, which adds the
`if (!this.enabled) return` guard and, where the body dereferences its
options argument, the `TypeError` raised on a `null`/`undefined`
argument.  The wrappers return `Except String`, the model of a
JavaScript call that either returns or throws. -/

/-- Body of `Trace.dataId`: generate the id locally, fire off the
background upload, return the id immediately.  When the trace is
disabled, `randomUUID()` is still called once and returned as a dummy id,
and no upload is submitted. -/
def Trace.dataIdRun (gen : Nat → String) (data : JValue) (key : String)
    (metadata : Option Meta) (w : TraceWorld) : String × TraceWorld :=
  if w.trace.enabled = false then
    (gen w.genIdx, { w with genIdx := w.genIdx + 1 })
  else
    let dataId := gen w.genIdx
    let w := { w with genIdx := w.genIdx + 1 }
    let task : BlobTask :=
      { traceId := w.trace.traceId, data := data, key := key,
        dataId := dataId, metadata := metadata }
    (dataId, { w with blobTasks := w.blobTasks ++ [task] })

/-- `Trace.dataId`.  The body has no throwing property access (the
background promise rejection is swallowed by `.catch`), so every path
returns `.ok`. -/
def Trace.dataId (gen : Nat → String) (data : JValue) (key : String)
    (metadata : Option Meta) (w : TraceWorld) : Except String (String × TraceWorld) :=
  .ok (Trace.dataIdRun gen data key metadata w)

/-- Body of `Trace.step` on a non-null options argument: determine the
step number (caller-supplied, raising the counter to the max; or
auto-increment), draw a `stepId`, build the step event and hand it to the
event uploader. -/
def Trace.stepRun (gen : Nat → String) (now : Nat) (o : StepOptions)
    (w : TraceWorld) : TraceWorld :=
  let t := w.trace
  let sn :=
    match o.stepNumber with
    | some n => (n, { t with currentStepNumber := max t.currentStepNumber n })
    | none => (t.currentStepNumber + 1, { t with currentStepNumber := t.currentStepNumber + 1 })
  let stepNumber := sn.1
  let t := sn.2
  let stepId := gen w.genIdx
  let ev := Event.step stepId t.traceId t.projectId o.stepName stepNumber
    ((o.artifacts.getD []).map (fun a => { dataId := a.dataId, type := a.type }))
    (o.metadata.getD []) now
  { w with trace := t, genIdx := w.genIdx + 1, events := w.events ++ [ev] }

/-- `Trace.step`.  The disabled guard runs before any property access;
afterwards a `null`/`undefined` options argument throws a `TypeError`
when `options.stepNumber` is read. -/
def Trace.step (gen : Nat → String) (now : Nat) (options : Option StepOptions)
    (w : TraceWorld) : Except String TraceWorld :=
  if w.trace.enabled = false then .ok w
  else
    match options with
    | none => .error "TypeError: cannot read properties of null"
    | some o => .ok (Trace.stepRun gen now o w)

/-- `Trace.error`: normalize the error to an `Error` object
(`new Error(s)` is modelled by `mkStack`, the engine-supplied stack
capture), then delegate to `step` with `stepName = "error"` and metadata
enriched with the error fields.  The source builds the metadata literal
with the error fields first and the user metadata spread after them, so
on a name collision the user metadata wins. -/
def Trace.error (gen : Nat → String) (now : Nat) (mkStack : String → Option String)
    (options : Option ErrorOptions) (w : TraceWorld) : Except String TraceWorld :=
  if w.trace.enabled = false then .ok w
  else
    match options with
    | none => .error "TypeError: cannot read properties of null"
    | some o =>
      let errorObj :=
        match o.error with
        | .errObj e => e
        | .str s => { message := s, stack := mkStack s }
      let stackVal :=
        match errorObj.stack with
        | some st => JValue.str st
        | none => JValue.null
      Trace.step gen now
        (some { stepName := "error", stepNumber := none, artifacts := none,
                metadata := some ([("error", JValue.str errorObj.message),
                                   ("stack", stackVal)] ++ o.metadata.getD []) }) w

/-- Body of `Trace.success`, including the `if (!this.enabled || this.ended)
return` guard.  `options?.metadata ?? {}` uses optional chaining, so a
`null`/`undefined` argument is tolerated and no path throws. -/
def Trace.successRun (now : Nat) (options : Option EndOptions)
    (w : TraceWorld) : TraceWorld :=
  if w.trace.enabled = false ∨ w.trace.ended = true then w
  else
    let t := { w.trace with ended := true }
    let ev := Event.traceSuccess t.traceId t.projectId []
      ((options.bind (·.metadata)).getD []) now now
    { w with trace := t, events := w.events ++ [ev] }

/-- `Trace.success`. -/
def Trace.success (now : Nat) (options : Option EndOptions)
    (w : TraceWorld) : Except String TraceWorld :=
  .ok (Trace.successRun now options w)

/-- Body of `Trace.failure`, symmetric to `successRun`. -/
def Trace.failureRun (now : Nat) (options : Option EndOptions)
    (w : TraceWorld) : TraceWorld :=
  if w.trace.enabled = false ∨ w.trace.ended = true then w
  else
    let t := { w.trace with ended := true }
    let ev := Event.traceFailure t.traceId t.projectId []
      ((options.bind (·.metadata)).getD []) now now
    { w with trace := t, events := w.events ++ [ev] }

/-- `Trace.failure`. -/
def Trace.failure (now : Nat) (options : Option EndOptions)
    (w : TraceWorld) : Except String TraceWorld :=
  .ok (Trace.failureRun now options w)

/-- Body of `Trace.capture` on a non-null options argument: call `dataId`
synchronously for each artifact (one `randomUUID()` draw and one blob
task each), then draw a `stepId`, auto-increment the step counter and
emit a step event whose artifacts carry the `null` type tag. -/
def Trace.captureRun (gen : Nat → String) (now : Nat) (o : CaptureOptions)
    (w : TraceWorld) : TraceWorld :=
  let acc := o.artifacts.foldl
    (fun (acc : List String × TraceWorld) artifact =>
      let r := Trace.dataIdRun gen artifact.data artifact.key none acc.2
      (acc.1 ++ [r.1], r.2))
    ([], w)
  let dataIds := acc.1
  let w := acc.2
  let stepId := gen w.genIdx
  let t := { w.trace with currentStepNumber := w.trace.currentStepNumber + 1 }
  let ev := Event.step stepId t.traceId t.projectId o.stepName t.currentStepNumber
    (dataIds.map (fun d => { dataId := d, type := none }))
    (o.metadata.getD []) now
  { w with trace := t, genIdx := w.genIdx + 1, events := w.events ++ [ev] }

/-- `Trace.capture`.  The disabled guard runs before any property access;
afterwards a `null`/`undefined` options argument throws a `TypeError`
when `options.artifacts` is read. -/
def Trace.capture (gen : Nat → String) (now : Nat) (options : Option CaptureOptions)
    (w : TraceWorld) : Except String TraceWorld :=
  if w.trace.enabled = false then .ok w
  else
    match options with
    | none => .error "TypeError: cannot read properties of null"
    | some o => .ok (Trace.captureRun gen now o w)

/-- Boolean observer for the `Except` model of a JavaScript call:
`true` when the call returned normally. -/
def exceptIsOk : Except String α → Bool
  | .ok _ => true
  | .error _ => false

/-! ## BaseTracer (src/packages/xray-sdk/src/trace/BaseTracer.ts) -/

/-- `BaseTracerConfig`: the user-supplied configuration; every field
except `apiKey` and `projectId` is optional. -/
structure BaseTracerConfig where
  apiKey : String
  projectId : String
  enabled : Option Bool
  debug : Option Bool
  baseUrl : Option String
  tempDir : Option String
  maxDiskSize : Option Nat
  maxMemorySize : Option Nat
  batchInterval : Option Nat
  maxBatchSize : Option Nat
  workerPoolSize : Option Nat

/-- `Required<BaseTracerConfig>`: the configuration after the defaults of
the `BaseTracer` constructor have been applied. -/
structure ResolvedTracerConfig where
  apiKey : String
  projectId : String
  enabled : Bool
  debug : Bool
  baseUrl : String
  tempDir : String
  maxDiskSize : Nat
  maxMemorySize : Nat
  batchInterval : Nat
  maxBatchSize : Nat
  workerPoolSize : Nat

/-- Default application performed at the top of the `BaseTracer`
constructor.  `envXrayBaseUrl` models `process.env.XRAY_BASE_URL` and
`detectedTempDir` the result of `detectTempDir()`. -/
def BaseTracer.applyDefaults (config : BaseTracerConfig)
    (envXrayBaseUrl : Option String) (detectedTempDir : String) : ResolvedTracerConfig :=
  { enabled := config.enabled.getD true
    debug := config.debug.getD false
    baseUrl := config.baseUrl.getD (envXrayBaseUrl.getD "http://localhost:3000")
    tempDir := config.tempDir.getD detectedTempDir
    maxDiskSize := config.maxDiskSize.getD (2 * 1024 * 1024 * 1024)
    maxMemorySize := config.maxMemorySize.getD (50 * 1024 * 1024)
    batchInterval := config.batchInterval.getD 1000
    maxBatchSize := config.maxBatchSize.getD 50
    workerPoolSize := config.workerPoolSize.getD 2
    apiKey := config.apiKey
    projectId := config.projectId }

/-- `BaseTracer.createTrace`.  With `enabled=false` it returns the no-op
trace with an empty `traceId`, draws no UUID and emits nothing; otherwise
it draws the trace UUID, emits the `trace-start` event and returns an
enabled trace bound to the uploaders. -/
def BaseTracer.createTrace (config : ResolvedTracerConfig) (gen : Nat → String)
    (genIdx : Nat) (now : Nat) (options : Option TraceOptions) : TraceWorld :=
  if config.enabled = false then
    { trace := { traceId := "", projectId := config.projectId, enabled := false,
                 currentStepNumber := 0, ended := false },
      genIdx := genIdx, events := [], blobTasks := [] }
  else
    let traceId := config.projectId ++ "-" ++ gen genIdx
    let startEvent := Event.traceStart traceId config.projectId
      ((options.bind (·.metadata)).getD []) now
    { trace := { traceId := traceId, projectId := config.projectId, enabled := true,
                 currentStepNumber := 0, ended := false },
      genIdx := genIdx + 1, events := [startEvent], blobTasks := [] }

/-! ## Debug sink and the disk-to-memory fallback -/

/-- `DebugLogger` (src/packages/xray-sdk/src/utils/debug.ts): conditional
logging based on the debug flag. -/
structure DebugLogger where
  enabled : Bool

/-- `DebugLogger.warn`: the emitted console lines.  The body is guarded
by the debug flag, so nothing is printed when the flag is off. -/
def DebugLogger.warn (d : DebugLogger) (msg : String) : List String :=
  if d.enabled then [msg] else []

/-- Which spool backend a component is wired against. -/
inductive StorageChoice where
  | disk (tempDir : String) (maxDiskSize : Nat)
  | memory (maxMemorySize : Nat)
deriving DecidableEq

/-- The storage wiring of a `BaseTracer`: the current spool and the spool
each uploader was constructed against. -/
structure TracerWiring where
  config : ResolvedTracerConfig
  storage : StorageChoice
  dataUploaderStorage : StorageChoice
  eventUploaderStorage : StorageChoice

/-- `BaseTracer.recreateUploaders`: rebuild both uploaders against the
current storage. -/
def BaseTracer.recreateUploaders (t : TracerWiring) : TracerWiring :=
  { t with dataUploaderStorage := t.storage, eventUploaderStorage := t.storage }

/-- The `catch` handler of `initializeStorage()` in the `BaseTracer`
constructor: warn through the debug sink, swap in a `MemoryStorage` with
the memory quota, and recreate the uploaders against it.  Returns the new
wiring and the console lines emitted. -/
def BaseTracer.onStorageInitFailure (t : TracerWiring) : TracerWiring × List String :=
  let logs := (DebugLogger.mk t.config.debug).warn
    "[BaseTracer] DiskStorage initialization failed, falling back to MemoryStorage:"
  let t2 := { t with storage := StorageChoice.memory t.config.maxMemorySize }
  (BaseTracer.recreateUploaders t2, logs)

/-! ## Call harness for whole-trace runs -/

/-- One user-facing call on a `Trace` handle, with its call-site data:
the `Date.now()` reading and the argument values. -/
inductive TraceCall where
  | dataId (data : JValue) (key : String) (metadata : Option Meta)
  | step (now : Nat) (options : Option StepOptions)
  | error (now : Nat) (options : Option ErrorOptions)
  | success (now : Nat) (options : Option EndOptions)
  | failure (now : Nat) (options : Option EndOptions)
  | capture (now : Nat) (options : Option CaptureOptions)

/-- Run one call.  A call that throws leaves the world unchanged. -/
def runTraceCall (gen : Nat → String) (mkStack : String → Option String)
    (w : TraceWorld) : TraceCall → TraceWorld
  | .dataId d k m =>
    match Trace.dataId gen d k m w with
    | .ok r => r.2
    | .error _ => w
  | .step n o =>
    match Trace.step gen n o w with
    | .ok w2 => w2
    | .error _ => w
  | .error n o =>
    match Trace.error gen n mkStack o w with
    | .ok w2 => w2
    | .error _ => w
  | .success n o =>
    match Trace.success n o w with
    | .ok w2 => w2
    | .error _ => w
  | .failure n o =>
    match Trace.failure n o w with
    | .ok w2 => w2
    | .error _ => w
  | .capture n o =>
    match Trace.capture gen n o w with
    | .ok w2 => w2
    | .error _ => w

/-- Run a sequence of calls in order. -/
def runTraceCalls (gen : Nat → String) (mkStack : String → Option String)
    (w : TraceWorld) (cs : List TraceCall) : TraceWorld :=
  cs.foldl (runTraceCall gen mkStack) w

/-! ## Step-number harness -/

/-- One `step` call with a well-formed options record. -/
structure StepCall where
  now : Nat
  options : StepOptions

/-- Run a sequence of `step` calls. -/
def runSteps (gen : Nat → String) (w : TraceWorld) (cs : List StepCall) : TraceWorld :=
  cs.foldl
    (fun w c =>
      match Trace.step gen c.now (some c.options) w with
      | .ok w2 => w2
      | .error _ => w)
    w

/-- The `stepNumber` values carried by the step events of a list, in
order. -/
def emittedStepNumbers (evs : List Event) : List Int :=
  evs.filterMap
    (fun e =>
      match e with
      | .step _ _ _ _ n _ _ _ => some n
      | _ => none)

/-- The step numbers emitted by a run of `step` calls, excluding events
that were already in the world before the run. -/
def newStepNumbers (gen : Nat → String) (w : TraceWorld) (cs : List StepCall) : List Int :=
  emittedStepNumbers ((runSteps gen w cs).events.drop w.events.length)

/-- Among the numbers emitted by a run of `step` calls, those of the
auto-incremented calls (the calls that supplied no explicit
`stepNumber`), in emission order. -/
def newAutoStepNumbers (gen : Nat → String) (w : TraceWorld) (cs : List StepCall) : List Int :=
  ((cs.map (fun c => c.options.stepNumber)).zip (newStepNumbers gen w cs)).filterMap
    (fun p =>
      match p.1 with
      | none => some p.2
      | some _ => none)

/-- Specification-side recurrence for the emitted step numbers: from
counter `c`, a call with an explicit number `n` emits `n` and sets the
counter to `max c n`; an auto-incremented call emits and sets `c + 1`. -/
def emitNums (c : Int) : List (Option Int) → List Int
  | [] => []
  | none :: rest => (c + 1) :: emitNums (c + 1) rest
  | some n :: rest => n :: emitNums (max c n) rest

/-- Specification-side recurrence for the auto-incremented subsequence of
`emitNums`. -/
def autoNums (c : Int) : List (Option Int) → List Int
  | [] => []
  | none :: rest => (c + 1) :: autoNums (c + 1) rest
  | some n :: rest => autoNums (max c n) rest

/-! ## Association-map and array helpers

`Map` operations and the `Array.prototype` operations the storage
backends use (`findIndex`, `splice(i, 1)`), written as recursive
functions so the storage code below reads like the source. -/

/-- `Map.get`: the value of the first binding with the given key. -/
def mapFind? (l : List (String × α)) (k : String) : Option α :=
  match l with
  | [] => none
  | (k1, v1) :: rest => if k1 = k then some v1 else mapFind? rest k

/-- `Map.set`: replace the binding in place when the key is present,
append it otherwise. -/
def mapSet (l : List (String × α)) (k : String) (v : α) : List (String × α) :=
  match l with
  | [] => [(k, v)]
  | (k1, v1) :: rest => if k1 = k then (k, v) :: rest else (k1, v1) :: mapSet rest k v

/-- `Map.delete`: remove the first binding with the given key. -/
def mapErase (l : List (String × α)) (k : String) : List (String × α) :=
  match l with
  | [] => []
  | (k1, v1) :: rest => if k1 = k then rest else (k1, v1) :: mapErase rest k

/-- `Array.prototype.findIndex`, returning `none` for `-1`. -/
def findIndex (p : α → Bool) : List α → Option Nat
  | [] => none
  | x :: xs => if p x then some 0 else (findIndex p xs).map (· + 1)

/-- `Array.prototype.splice(i, 1)`: drop the element at index `i`. -/
def removeAt : List α → Nat → List α
  | [], _ => []
  | _ :: xs, 0 => xs
  | x :: xs, n + 1 => x :: removeAt xs n

/-- The keys of an association map, in binding order. -/
def keysOf (l : List (String × α)) : List String :=
  l.map Prod.fst

/-! ## MemoryStorage (src/packages/xray-sdk/src/storage/MemoryStorage.ts) -/

/-- `MemoryEntry`: `{ id, data, createdAt }`; `data : String` models the
byte buffer, its `length` the buffer size. -/
structure MemoryEntry where
  id : String
  data : String
  createdAt : Nat

/-- `MemoryStorage` state: the entry map, the insertion-ordered
`entriesByTime` sequence (id and `createdAt`), the tracked size and the
quota.  The tracked size is an `Int`, matching the JavaScript number it
models. -/
structure MemoryStorage where
  entries : List (String × MemoryEntry)
  entriesByTime : List (String × Nat)
  currentSize : Int
  maxSize : Nat

/-- A fresh `MemoryStorage` with the given quota. -/
def MemoryStorage.empty (maxSize : Nat) : MemoryStorage :=
  { entries := [], entriesByTime := [], currentSize := 0, maxSize := maxSize }

/-- `MemoryStorage.delete`: missing ids are ignored; otherwise the map
binding is removed, and when the id is found in `entriesByTime` the
tracked size is decremented and the sequence entry spliced out. -/
def MemoryStorage.delete (s : MemoryStorage) (id : String) : MemoryStorage :=
  match mapFind? s.entries id with
  | none => s
  | some entry =>
    let s1 := { s with entries := mapErase s.entries id }
    match findIndex (fun e => e.1 == id) s1.entriesByTime with
    | some i =>
      { s1 with currentSize := s1.currentSize - entry.data.length,
                entriesByTime := removeAt s1.entriesByTime i }
    | none => s1

/-- One unrolling of the `cleanup` while-loop per unit of fuel; the fuel
only bounds the iteration count, it does not change which states the loop
reaches. -/
def MemoryStorage.cleanupFuel (maxSize : Int) : Nat → MemoryStorage → MemoryStorage
  | 0, s => s
  | Nat.succ fuel, s =>
    if s.currentSize > maxSize then
      match s.entriesByTime with
      | [] => s
      | oldest :: _ => MemoryStorage.cleanupFuel maxSize fuel (s.delete oldest.1)
    else s

/-- `MemoryStorage.cleanup`: delete the oldest entry (the front of
`entriesByTime`) while the tracked size exceeds `maxSize` and entries
remain.  `entriesByTime.length` units of fuel cover every terminating run
of the source loop, which removes one sequence entry per iteration. -/
def MemoryStorage.cleanup (s : MemoryStorage) (maxSize : Int) : MemoryStorage :=
  MemoryStorage.cleanupFuel maxSize s.entriesByTime.length s

/-- The part of `MemoryStorage.write` before the quota check: subtract
and splice out a prior entry with the same id, then store the new entry,
append it to `entriesByTime` and add its size. -/
def MemoryStorage.writeInsert (s : MemoryStorage) (id : String) (data : String)
    (now : Nat) : MemoryStorage :=
  let entry : MemoryEntry := { id := id, data := data, createdAt := now }
  let s1 :=
    match mapFind? s.entries id with
    | some oldEntry =>
      let s2 := { s with currentSize := s.currentSize - oldEntry.data.length }
      match findIndex (fun (e : String × Nat) => e.1 == id) s2.entriesByTime with
      | some i => { s2 with entriesByTime := removeAt s2.entriesByTime i }
      | none => s2
    | none => s
  { s1 with entries := mapSet s1.entries id entry,
            entriesByTime := s1.entriesByTime ++ [(id, now)],
            currentSize := s1.currentSize + data.length }

/-- `MemoryStorage.write`: insert the entry, then run `cleanup(maxSize)`
when the tracked size exceeds the quota. -/
def MemoryStorage.write (s : MemoryStorage) (id : String) (data : String)
    (now : Nat) : MemoryStorage :=
  let s1 := s.writeInsert id data now
  if s1.currentSize > (s1.maxSize : Int) then s1.cleanup s1.maxSize else s1

/-- Total size of the entries of a map, through a size function on the
values. -/
def sizeSumBy (f : α → Nat) (l : List (String × α)) : Int :=
  (l.map (fun p => (f p.2 : Int))).sum

/-- Well-formedness of the paired tracking structures, shared by both
backends: the map keys are distinct, `entriesByTime` holds exactly the
map keys, and the tracked size is the sum of the entry sizes.  It holds
for the empty storage and is preserved by every operation. -/
def SpoolInv (f : α → Nat) (entries : List (String × α))
    (entriesByTime : List (String × Nat)) (currentSize : Int) : Prop :=
  (keysOf entries).Nodup ∧
  (keysOf entriesByTime).Perm (keysOf entries) ∧
  currentSize = sizeSumBy f entries

/-- Well-formedness of a `MemoryStorage`. -/
def MemoryStorage.WF (s : MemoryStorage) : Prop :=
  SpoolInv (fun (e : MemoryEntry) => e.data.length) s.entries s.entriesByTime s.currentSize

/-! ## DiskStorage (src/packages/xray-sdk/src/storage/DiskStorage.ts)

The filesystem is modelled by its effect on the in-memory registry: a
successful `fs.writeFile` followed by `fs.stat` yields `stats.size`
equal to the buffer length, and `delete` updates the registry the same
way whether or not `fs.unlink` succeeded (the catch arm repeats the
registry removal). -/

/-- File kind, encoded in the on-disk filename. -/
inductive StorageKind where
  | data
  | events
deriving DecidableEq

/-- `StorageEntry`: `{ id, filePath, size, createdAt }`. -/
structure StorageEntry where
  id : String
  filePath : String
  size : Nat
  createdAt : Nat

/-- `DiskStorage` state: registry map, insertion-ordered sequence,
tracked size, the two directories and the quota. -/
structure DiskStorage where
  entries : List (String × StorageEntry)
  entriesByTime : List (String × Nat)
  currentSize : Int
  dataDir : String
  eventsDir : String
  maxSize : Nat

/-- A fresh `DiskStorage` rooted at `storageDir` (constructor):
`dataDir = storageDir/data`, `eventsDir = storageDir/events`. -/
def DiskStorage.create (storageDir : String) (maxSize : Nat) : DiskStorage :=
  { entries := [], entriesByTime := [], currentSize := 0,
    dataDir := storageDir ++ "/data", eventsDir := storageDir ++ "/events",
    maxSize := maxSize }

/-- `DiskStorage.generateFilename`. -/
def DiskStorage.generateFilename (id : String) (type : StorageKind) : String :=
  match type with
  | .data => id ++ ".data.bin"
  | .events => id ++ ".events.json"

/-- `DiskStorage.delete`: the registry entry is removed whether or not
the unlink succeeded, so a single transition covers both arms. -/
def DiskStorage.delete (s : DiskStorage) (id : String) : DiskStorage :=
  match mapFind? s.entries id with
  | none => s
  | some entry =>
    let s1 := { s with entries := mapErase s.entries id }
    match findIndex (fun e => e.1 == id) s1.entriesByTime with
    | some i =>
      { s1 with currentSize := s1.currentSize - entry.size,
                entriesByTime := removeAt s1.entriesByTime i }
    | none => s1

/-- One unrolling of the disk `cleanup` while-loop per unit of fuel. -/
def DiskStorage.cleanupFuel (maxSize : Int) : Nat → DiskStorage → DiskStorage
  | 0, s => s
  | Nat.succ fuel, s =>
    if s.currentSize > maxSize then
      match s.entriesByTime with
      | [] => s
      | oldest :: _ => DiskStorage.cleanupFuel maxSize fuel (s.delete oldest.1)
    else s

/-- `DiskStorage.cleanup`, with the same fuel bound as the memory
variant. -/
def DiskStorage.cleanup (s : DiskStorage) (maxSize : Int) : DiskStorage :=
  DiskStorage.cleanupFuel maxSize s.entriesByTime.length s

/-- The part of `DiskStorage.write` before the quota check: write the
file, stat it (`stats.size` is the buffer length), subtract and splice
out a prior entry with the same id, then record the new entry. -/
def DiskStorage.writeInsert (s : DiskStorage) (id : String) (data : String)
    (type : StorageKind) (now : Nat) : DiskStorage :=
  let filename := DiskStorage.generateFilename id type
  let dir := match type with | .data => s.dataDir | .events => s.eventsDir
  let filePath := dir ++ "/" ++ filename
  let entry : StorageEntry :=
    { id := id, filePath := filePath, size := data.length, createdAt := now }
  let s1 :=
    match mapFind? s.entries id with
    | some oldEntry =>
      let s2 := { s with currentSize := s.currentSize - oldEntry.size }
      match findIndex (fun (e : String × Nat) => e.1 == id) s2.entriesByTime with
      | some i => { s2 with entriesByTime := removeAt s2.entriesByTime i }
      | none => s2
    | none => s
  { s1 with entries := mapSet s1.entries id entry,
            entriesByTime := s1.entriesByTime ++ [(id, now)],
            currentSize := s1.currentSize + entry.size }

/-- `DiskStorage.write`: insert the entry, then run `cleanup(maxSize)`
when the tracked size exceeds the quota. -/
def DiskStorage.write (s : DiskStorage) (id : String) (data : String)
    (type : StorageKind) (now : Nat) : DiskStorage :=
  let s1 := s.writeInsert id data type now
  if s1.currentSize > (s1.maxSize : Int) then s1.cleanup s1.maxSize else s1

/-- Well-formedness of a `DiskStorage`. -/
def DiskStorage.WF (s : DiskStorage) : Prop :=
  SpoolInv (fun (e : StorageEntry) => e.size) s.entries s.entriesByTime s.currentSize

/-! ## BatchQueue (src/packages/xray-sdk/src/queue/BatchQueue.ts)

The queue is polymorphic in the buffered element type, as nothing in the
queue inspects an event.  `intervalOn` models whether the
`setInterval` handle is live, `isProcessing` the reentrancy guard. -/

/-- `BatchQueue` state. -/
structure BatchQueue (α : Type) where
  events : List α
  intervalOn : Bool
  isProcessing : Bool
  batchInterval : Nat
  maxBatchSize : Nat

/-- The synchronous mutation performed by `BatchQueue.add`: push the
event, and start the interval when this is the first buffered event and
no interval is live.  The flush that `add` may then trigger on reaching
`maxBatchSize` is a separate transition (`flushRun`); during a running
flush that nested call returns immediately through the `isProcessing`
guard. -/
def BatchQueue.add (q : BatchQueue α) (e : α) : BatchQueue α :=
  let q := { q with events := q.events ++ [e] }
  if q.intervalOn = false ∧ q.events.length = 1 then
    { q with intervalOn := true }
  else q

/-- One complete run of `BatchQueue.flush`: the early return when a flush
is running or the buffer is empty; otherwise snapshot and clear the
buffer, cancel the interval, set `isProcessing`, run the handler (the
events added while it was awaited are `during`, its outcome is
`handlerOk`), on failure unshift the snapshot back and restart the
interval, and finally clear `isProcessing` and stop the interval when the
buffer ended up empty. -/
def BatchQueue.flushRun (q : BatchQueue α) (during : List α) (handlerOk : Bool) :
    BatchQueue α :=
  if q.isProcessing = true ∨ q.events.isEmpty then q
  else
    let batch := q.events
    let q1 : BatchQueue α := { q with events := [], intervalOn := false, isProcessing := true }
    let q2 := during.foldl BatchQueue.add q1
    let q3 :=
      if handlerOk then q2
      else
        let qf := { q2 with events := batch ++ q2.events }
        if qf.events.isEmpty = false ∧ qf.intervalOn = false then
          { qf with intervalOn := true }
        else qf
    let q4 := { q3 with isProcessing := false }
    if q4.events.isEmpty then { q4 with intervalOn := false } else q4

/-! ## EventUploader.handleFlush (src/packages/xray-sdk/src/uploaders/EventUploader.ts) -/

/-- Side effects `handleFlush` can perform, in order: the spool write of
the serialized batch, the ingest call, the spool delete. -/
inductive UploadAction where
  | storageWrite (id : String) (bytes : String) (kind : StorageKind)
  | ingest (events : List Event)
  | storageDelete (id : String)

/-- `EventUploader.handleFlush`, as a function of the outcomes of its
three effectful operations: `writeOk` for the spool write, `ingestOk`
for the ingest call, `deleteOk` for the spool delete.  `batchId` is the
`randomUUID()` draw, `serialize` the `JSON.stringify` encoding.  Returns
the successfully performed actions in order, and `.error` exactly when
the method re-throws (so the `BatchQueue` re-queues the batch); a failed
delete after a successful ingest is caught and logged, not re-thrown. -/
def EventUploader.handleFlush (events : List Event) (batchId : String)
    (serialize : List Event → String) (writeOk ingestOk deleteOk : Bool) :
    List UploadAction × Except String Unit :=
  if events.length = 0 then ([], .ok ())
  else
    let storageId := "events-" ++ batchId
    let batchJson := serialize events
    if writeOk = false then ([], .error "storage write failed")
    else
      let acts := [UploadAction.storageWrite storageId batchJson .events]
      if ingestOk = false then (acts, .error "ingest failed")
      else
        let acts := acts ++ [UploadAction.ingest events]
        if deleteOk then (acts ++ [UploadAction.storageDelete storageId], .ok ())
        else (acts, .ok ())

/-! ## Specification-side helpers for the step-number analysis -/

/-- The number emitted by one `step` call as a function of the current
counter and the optional caller-supplied number. -/
def stepEmitted (c : Int) : Option Int → Int
  | some n => n
  | none => c + 1

/-- The counter after one `step` call. -/
def stepCounterNext (c : Int) : Option Int → Int
  | some n => max c n
  | none => c + 1

/-! ## Concrete fixtures used by witnesses and counterexamples -/

/-- A deterministic stand-in for the `randomUUID()` draw sequence. -/
def genU (n : Nat) : String :=
  "uuid-" ++ toString n

/-- A fresh enabled trace with no recorded effects. -/
def enabledWorld : TraceWorld :=
  { trace := { traceId := "p-uuid-t", projectId := "p", enabled := true,
               currentStepNumber := 0, ended := false },
    genIdx := 0, events := [], blobTasks := [] }

/-- A no-op trace as returned by a disabled tracer. -/
def disabledWorld : TraceWorld :=
  { trace := { traceId := "", projectId := "p", enabled := false,
               currentStepNumber := 0, ended := false },
    genIdx := 0, events := [], blobTasks := [] }

/-- A configuration that omits every optional field. -/
def cfgAllDefaults : BaseTracerConfig :=
  { apiKey := "k", projectId := "p", enabled := none, debug := none,
    baseUrl := none, tempDir := none, maxDiskSize := none, maxMemorySize := none,
    batchInterval := none, maxBatchSize := none, workerPoolSize := none }

/-- A resolved configuration with the debug flag off. -/
def quietConfig : ResolvedTracerConfig :=
  { apiKey := "k", projectId := "p", enabled := true, debug := false,
    baseUrl := "http://localhost:3000", tempDir := "/tmp/xray",
    maxDiskSize := 1024, maxMemorySize := 512, batchInterval := 1000,
    maxBatchSize := 50, workerPoolSize := 2 }

/-- A resolved configuration with `enabled := false`. -/
def offConfig : ResolvedTracerConfig :=
  { quietConfig with enabled := false }

/-- A tracer wired to its disk spool, debug off. -/
def quietWiring : TracerWiring :=
  { config := quietConfig,
    storage := StorageChoice.disk "/tmp/xray" 1024,
    dataUploaderStorage := StorageChoice.disk "/tmp/xray" 1024,
    eventUploaderStorage := StorageChoice.disk "/tmp/xray" 1024 }

/-- The fallback warning line. -/
def fallbackWarnMsg : String :=
  "[BaseTracer] DiskStorage initialization failed, falling back to MemoryStorage:"

/-- Step options with an explicit step number. -/
def stepOptsExplicit (n : Int) : StepOptions :=
  { stepName := "s", stepNumber := some n, artifacts := none, metadata := none }

/-- Step options relying on auto-increment. -/
def stepOptsAuto : StepOptions :=
  { stepName := "s", stepNumber := none, artifacts := none, metadata := none }

/-- Supply `stepNumber = 7`, then two auto-increments. -/
def demoCalls789 : List StepCall :=
  [{ now := 0, options := stepOptsExplicit 7 },
   { now := 1, options := stepOptsAuto },
   { now := 2, options := stepOptsAuto }]

/-- Supply `stepNumber = 7`, then `stepNumber = 3`. -/
def demoCallsDecreasing : List StepCall :=
  [{ now := 0, options := stepOptsExplicit 7 },
   { now := 1, options := stepOptsExplicit 3 }]

/-- A one-event batch for the flush fixtures. -/
def demoBatch : List Event :=
  [Event.traceStart "p-uuid-t" "p" [] 0]

/-- A concrete batch queue holding one buffered event. -/
def demoQueue : BatchQueue Nat :=
  { events := [1], intervalOn := true, isProcessing := false,
    batchInterval := 1000, maxBatchSize := 50 }

/-- Error options for the fixtures. -/
def demoErrorOpts : ErrorOptions :=
  { error := ErrArg.str "boom", metadata := none }

/-- Capture options with one inline artifact for the fixtures. -/
def demoCaptureOpts : CaptureOptions :=
  { stepName := "c", artifacts := [{ data := JValue.null, key := "a" }], metadata := none }

/-- A call sequence touching every user-facing method. -/
def demoCallSeq : List TraceCall :=
  [TraceCall.dataId JValue.null "k" none,
   TraceCall.step 1 (some stepOptsAuto),
   TraceCall.error 2 (some demoErrorOpts),
   TraceCall.capture 3 (some demoCaptureOpts),
   TraceCall.success 4 none,
   TraceCall.failure 5 none]

/-! ## General lemmas about the trace methods -/

/-- On an enabled trace, `step` with a well-formed options record returns
normally with the body transition. -/
theorem Trace.step_enabled_some (gen : Nat → String) (now : Nat) (o : StepOptions)
    (w : TraceWorld) (h : w.trace.enabled = true) :
    Trace.step gen now (some o) w = .ok (Trace.stepRun gen now o w) := by
  simp [Trace.step, h]

/-- Closed form of the `step` body: one UUID draw, the counter update of
invariant 3, and exactly one appended step event. -/
theorem Trace.stepRun_eq (gen : Nat → String) (now : Nat) (o : StepOptions)
    (w : TraceWorld) :
    Trace.stepRun gen now o w =
      { w with
        trace := { w.trace with
          currentStepNumber := stepCounterNext w.trace.currentStepNumber o.stepNumber },
        genIdx := w.genIdx + 1,
        events := w.events ++
          [Event.step (gen w.genIdx) w.trace.traceId w.trace.projectId o.stepName
            (stepEmitted w.trace.currentStepNumber o.stepNumber)
            ((o.artifacts.getD []).map (fun a => { dataId := a.dataId, type := a.type }))
            (o.metadata.getD []) now] } := by
  cases h : o.stepNumber <;> simp [Trace.stepRun, stepEmitted, stepCounterNext, h]

/-- The `success` body leaves the enabled flag unchanged. -/
theorem Trace.successRun_enabled (now : Nat) (o : Option EndOptions) (w : TraceWorld) :
    (Trace.successRun now o w).trace.enabled = w.trace.enabled := by
  unfold Trace.successRun
  split <;> rfl

/-- The `failure` body leaves the enabled flag unchanged. -/
theorem Trace.failureRun_enabled (now : Nat) (o : Option EndOptions) (w : TraceWorld) :
    (Trace.failureRun now o w).trace.enabled = w.trace.enabled := by
  unfold Trace.failureRun
  split <;> rfl

/-- After the `success` body, the trace is ended or was not eligible to
end (disabled, or the body was a no-op on an already ended trace: in
every case a further end call meets a guard that is already true). -/
theorem Trace.successRun_guard (now : Nat) (o : Option EndOptions) (w : TraceWorld) :
    (Trace.successRun now o w).trace.enabled = false ∨
      (Trace.successRun now o w).trace.ended = true := by
  unfold Trace.successRun
  split
  case isTrue h =>
    rcases h with h | h
    · exact Or.inl h
    · exact Or.inr h
  case isFalse h => exact Or.inr rfl

/-- Same guard fact for the `failure` body. -/
theorem Trace.failureRun_guard (now : Nat) (o : Option EndOptions) (w : TraceWorld) :
    (Trace.failureRun now o w).trace.enabled = false ∨
      (Trace.failureRun now o w).trace.ended = true := by
  unfold Trace.failureRun
  split
  case isTrue h =>
    rcases h with h | h
    · exact Or.inl h
    · exact Or.inr h
  case isFalse h => exact Or.inr rfl

/-- The `success` body is the identity when the guard disjunction holds. -/
theorem Trace.successRun_of_guard (now : Nat) (o : Option EndOptions) (w : TraceWorld)
    (h : w.trace.enabled = false ∨ w.trace.ended = true) :
    Trace.successRun now o w = w := by
  unfold Trace.successRun
  rw [if_pos h]

/-- The `failure` body is the identity when the guard disjunction holds. -/
theorem Trace.failureRun_of_guard (now : Nat) (o : Option EndOptions) (w : TraceWorld)
    (h : w.trace.enabled = false ∨ w.trace.ended = true) :
    Trace.failureRun now o w = w := by
  unfold Trace.failureRun
  rw [if_pos h]

/-! ## Claim C1 -/

/-- Claim C1, counterexample: on an enabled trace, `step(null)` (a
malformed options argument) throws a `TypeError` out of the method — the
claim that no input, including malformed options, can make a user-facing
method raise is false on the code, which wraps no method body in a
catch-all. -/
theorem c1_counterexample_step_null_throws :
    enabledWorld.trace.enabled = true ∧
      exceptIsOk (Trace.step genU 0 none enabledWorld) = false :=
  ⟨rfl, rfl⟩

/-- Claim C1 (amended): with well-formed arguments no user-facing trace
method throws: `dataId`, `success` and `failure` return normally on every
input (`success`/`failure` tolerate even a `null` options argument via
optional chaining), and `step`, `error` and `capture` return normally on
every non-null options record; internally induced failures (background
upload rejections, flush errors) stay behind the returned promise
handlers.  Only a `null`/`undefined` options argument passed to `step`,
`error` or `capture` on an enabled trace escapes as a `TypeError`. -/
theorem c1_amended_methods_return_normally :
    (∀ (gen : Nat → String) (d : JValue) (k : String) (m : Option Meta) (w : TraceWorld),
      exceptIsOk (Trace.dataId gen d k m w) = true) ∧
    (∀ (gen : Nat → String) (now : Nat) (o : StepOptions) (w : TraceWorld),
      exceptIsOk (Trace.step gen now (some o) w) = true) ∧
    (∀ (gen : Nat → String) (now : Nat) (mk : String → Option String)
        (o : ErrorOptions) (w : TraceWorld),
      exceptIsOk (Trace.error gen now mk (some o) w) = true) ∧
    (∀ (now : Nat) (o : Option EndOptions) (w : TraceWorld),
      exceptIsOk (Trace.success now o w) = true) ∧
    (∀ (now : Nat) (o : Option EndOptions) (w : TraceWorld),
      exceptIsOk (Trace.failure now o w) = true) ∧
    (∀ (gen : Nat → String) (now : Nat) (o : CaptureOptions) (w : TraceWorld),
      exceptIsOk (Trace.capture gen now (some o) w) = true) := by
  refine ⟨fun gen d k m w => rfl, ?_, ?_, fun now o w => rfl, fun now o w => rfl, ?_⟩
  · intro gen now o w
    by_cases h : w.trace.enabled = false <;> simp [Trace.step, h, exceptIsOk]
  · intro gen now mk o w
    by_cases h : w.trace.enabled = false <;>
      simp [Trace.error, Trace.step, h, exceptIsOk]
  · intro gen now o w
    by_cases h : w.trace.enabled = false <;> simp [Trace.capture, h, exceptIsOk]

/-! ## Claim C10 -/

/-- Claim C10: on a trace from a disabled tracer, `dataId` returns the
fresh `randomUUID()` draw (not a fixed constant and not the empty string
unless the generator produced one), submits no blob task, and only
advances the draw index; a second call therefore returns the next draw,
so two calls return distinct identifiers whenever the two generator draws
are distinct. -/
theorem c10_disabled_dataId_fresh_uuid (gen : Nat → String) (d d2 : JValue)
    (k k2 : String) (m m2 : Option Meta) (w : TraceWorld)
    (h : w.trace.enabled = false) :
    Trace.dataId gen d k m w
      = .ok (gen w.genIdx, { w with genIdx := w.genIdx + 1 }) ∧
    Trace.dataId gen d2 k2 m2 { w with genIdx := w.genIdx + 1 }
      = .ok (gen (w.genIdx + 1), { w with genIdx := w.genIdx + 1 + 1 }) ∧
    ({ w with genIdx := w.genIdx + 1 } : TraceWorld).blobTasks = w.blobTasks ∧
    ({ w with genIdx := w.genIdx + 1 + 1 } : TraceWorld).blobTasks = w.blobTasks := by
  refine ⟨?_, ?_, rfl, rfl⟩ <;> simp [Trace.dataId, Trace.dataIdRun, h]

/-- Claim C10, witness at a concrete disabled trace and generator. -/
theorem c10_witness :
    Trace.dataId genU JValue.null "in" none disabledWorld
      = .ok (genU 0, { disabledWorld with genIdx := 1 }) ∧
    Trace.dataId genU JValue.null "out" none { disabledWorld with genIdx := 1 }
      = .ok (genU 1, { disabledWorld with genIdx := 2 }) ∧
    genU 0 ≠ genU 1 ∧ genU 0 ≠ "" := by
  have h := c10_disabled_dataId_fresh_uuid genU JValue.null JValue.null "in" "out"
    none none disabledWorld rfl
  exact ⟨h.1, h.2.1, by decide, by decide⟩

/-! ## Claim C8 -/

/-- Claim C8, counterexample: with `maxDiskSize` omitted, the resolved
disk quota is 2147483648 bytes (2 GiB), not the 500 MiB (524288000
bytes) the claim states. -/
theorem c8_counterexample_default_disk_quota :
    cfgAllDefaults.maxDiskSize = none ∧
      (BaseTracer.applyDefaults cfgAllDefaults none "/tmp/xray").maxDiskSize
        ≠ 500 * 1024 * 1024 := by
  exact ⟨rfl, by decide⟩

/-- Claim C8 (amended): when the configuration omits `maxDiskSize`, the
disk spool quota defaults to 2 GiB (2 * 1024 * 1024 * 1024 bytes). -/
theorem c8_amended_default_disk_quota (c : BaseTracerConfig)
    (env : Option String) (tmp : String) (h : c.maxDiskSize = none) :
    (BaseTracer.applyDefaults c env tmp).maxDiskSize = 2 * 1024 * 1024 * 1024 := by
  simp [BaseTracer.applyDefaults, h]

/-- Claim C8, witness for the amended default. -/
theorem c8_amended_witness :
    (BaseTracer.applyDefaults cfgAllDefaults none "/tmp/xray").maxDiskSize
      = 2 * 1024 * 1024 * 1024 :=
  c8_amended_default_disk_quota cfgAllDefaults none "/tmp/xray" rfl

/-! ## Claim C9 -/

/-- Claim C9, counterexample: with the debug flag off, the disk-to-memory
fallback emits zero console lines — the warning goes through the debug
sink, whose `warn` prints nothing unless the flag is on, so it is not
logged "regardless of debug level". -/
theorem c9_counterexample_no_warning_when_debug_off :
    quietWiring.config.debug = false ∧
      (BaseTracer.onStorageInitFailure quietWiring).2 = [] :=
  ⟨rfl, rfl⟩

/-- Claim C9 (amended): when disk storage fails to initialize, the tracer
swaps in a memory spool sized by `maxMemorySize`, rebuilds both uploaders
against it, and makes exactly one `warn` call on the debug sink, which
prints the single warning line only when the debug flag is true and is
suppressed when it is false. -/
theorem c9_amended_fallback (t : TracerWiring) :
    (BaseTracer.onStorageInitFailure t).1.storage
      = StorageChoice.memory t.config.maxMemorySize ∧
    (BaseTracer.onStorageInitFailure t).1.dataUploaderStorage
      = StorageChoice.memory t.config.maxMemorySize ∧
    (BaseTracer.onStorageInitFailure t).1.eventUploaderStorage
      = StorageChoice.memory t.config.maxMemorySize ∧
    (BaseTracer.onStorageInitFailure t).2
      = (if t.config.debug then [fallbackWarnMsg] else []) := by
  refine ⟨rfl, rfl, rfl, ?_⟩
  simp [BaseTracer.onStorageInitFailure, DebugLogger.warn, fallbackWarnMsg]

/-! ## Claim C6 -/

/-- Claim C6: for a non-empty batch, `handleFlush` writes the serialized
batch to the spool under the fresh `events-{batchId}` storage id with
kind `events` before calling ingest; on ingest success the spool entry is
deleted and a delete failure does not fail the flush; a spool-write or
ingest failure is re-raised (so the `BatchQueue` re-queues the batch). -/
theorem c6_event_flush_protocol (events : List Event) (batchId : String)
    (serialize : List Event → String) (h : events ≠ []) :
    (EventUploader.handleFlush events batchId serialize true true true
      = ([UploadAction.storageWrite ("events-" ++ batchId) (serialize events) .events,
          UploadAction.ingest events,
          UploadAction.storageDelete ("events-" ++ batchId)], .ok ())) ∧
    (EventUploader.handleFlush events batchId serialize true true false
      = ([UploadAction.storageWrite ("events-" ++ batchId) (serialize events) .events,
          UploadAction.ingest events], .ok ())) ∧
    (∀ deleteOk, EventUploader.handleFlush events batchId serialize true false deleteOk
      = ([UploadAction.storageWrite ("events-" ++ batchId) (serialize events) .events],
         .error "ingest failed")) ∧
    (∀ ingestOk deleteOk,
      EventUploader.handleFlush events batchId serialize false ingestOk deleteOk
        = ([], .error "storage write failed")) := by
  have hlen : ¬ events.length = 0 := by
    simpa [List.length_eq_zero] using h
  refine ⟨?_, ?_, fun deleteOk => ?_, fun ingestOk deleteOk => ?_⟩ <;>
    simp [EventUploader.handleFlush, hlen]

/-- Claim C6, witness at a one-event batch. -/
theorem c6_witness :
    EventUploader.handleFlush demoBatch "b" (fun _ => "[]") true true false
      = ([UploadAction.storageWrite "events-b" "[]" .events,
          UploadAction.ingest demoBatch], .ok ()) :=
  (c6_event_flush_protocol demoBatch "b" (fun _ => "[]") (by simp [demoBatch])).2.1

/-! ## Claim C5 -/

/-- `add` appends one event and changes no field other than `events` and
possibly `intervalOn`. -/
theorem BatchQueue.add_spec {α : Type} (q : BatchQueue α) (e : α) :
    (BatchQueue.add q e).events = q.events ++ [e] ∧
    (BatchQueue.add q e).isProcessing = q.isProcessing ∧
    (BatchQueue.add q e).batchInterval = q.batchInterval ∧
    (BatchQueue.add q e).maxBatchSize = q.maxBatchSize := by
  by_cases hc : q.intervalOn = false ∧ (q.events ++ [e]).length = 1
  · simp only [BatchQueue.add]
    rw [if_pos hc]
    exact ⟨rfl, rfl, rfl, rfl⟩
  · simp only [BatchQueue.add]
    rw [if_neg hc]
    exact ⟨rfl, rfl, rfl, rfl⟩

/-- Folding `add` over a list appends exactly those events and leaves the
processing flag, the interval length and the size threshold untouched. -/
theorem BatchQueue.foldl_add_spec {α : Type} (l : List α) (q : BatchQueue α) :
    (l.foldl BatchQueue.add q).events = q.events ++ l ∧
    (l.foldl BatchQueue.add q).isProcessing = q.isProcessing ∧
    (l.foldl BatchQueue.add q).batchInterval = q.batchInterval ∧
    (l.foldl BatchQueue.add q).maxBatchSize = q.maxBatchSize := by
  induction l generalizing q with
  | nil => simp
  | cons x xs ih =>
    have hadd := BatchQueue.add_spec q x
    have hrest := ih (BatchQueue.add q x)
    simp only [List.foldl_cons]
    refine ⟨?_, ?_, ?_, ?_⟩
    · rw [hrest.1, hadd.1, List.append_assoc, List.singleton_append]
    · rw [hrest.2.1, hadd.2.1]
    · rw [hrest.2.2.1, hadd.2.2.1]
    · rw [hrest.2.2.2, hadd.2.2.2]

/-- Closed form of a failing flush started from a quiescent, non-empty
queue: the snapshot is prepended before the events added during the
flush, the interval is on, the processing guard is released. -/
theorem BatchQueue.flushRun_fail_eq {α : Type} (q : BatchQueue α) (during : List α)
    (hp : q.isProcessing = false) (hne : q.events ≠ []) :
    BatchQueue.flushRun q during false =
      { events := q.events ++ during, intervalOn := true, isProcessing := false,
        batchInterval := q.batchInterval, maxBatchSize := q.maxBatchSize } := by
  have hfold := BatchQueue.foldl_add_spec during
    ({ q with events := [], intervalOn := false, isProcessing := true } : BatchQueue α)
  rcases hQ : during.foldl BatchQueue.add
      ({ q with events := [], intervalOn := false, isProcessing := true } : BatchQueue α)
    with ⟨ev2, io2, ip2, bi2, mb2⟩
  rw [hQ] at hfold
  obtain ⟨hev, hip, hbi, hmb⟩ := hfold
  simp only at hev hip hbi hmb
  have hne2 : (q.events ++ during).isEmpty = false := by
    rcases hq : q.events with _ | ⟨x, xs⟩
    · exact absurd hq hne
    · simp
  unfold BatchQueue.flushRun
  rw [if_neg (by simp [hp, List.isEmpty_iff, hne])]
  simp only [hQ, Bool.false_eq_true, if_false]
  subst hev hip hbi hmb
  cases io2 with
  | false =>
    simp only [Bool.false_eq_true, and_true, hne2]
    simp [hne2]
  | true =>
    simp [hne2]

/-- Claim C5: when the flush handler of a flush started from a quiescent,
non-empty queue fails, the snapshotted batch is prepended back in front
of every event added during the flush — the buffer afterwards is the
failed batch followed by the newly added events in age order — the
interval timer is running afterwards, and the processing guard is
released. -/
theorem c5_failed_flush_requeues_and_restarts {α : Type} (q : BatchQueue α)
    (during : List α) (hp : q.isProcessing = false) (hne : q.events ≠ []) :
    (BatchQueue.flushRun q during false).events = q.events ++ during ∧
    (BatchQueue.flushRun q during false).intervalOn = true ∧
    (BatchQueue.flushRun q during false).isProcessing = false := by
  rw [BatchQueue.flushRun_fail_eq q during hp hne]
  exact ⟨rfl, rfl, rfl⟩

/-- Claim C5, witness at a concrete one-event queue with two events
added during the failing flush. -/
theorem c5_witness :
    (BatchQueue.flushRun demoQueue [2, 3] false).events = [1, 2, 3] ∧
    (BatchQueue.flushRun demoQueue [2, 3] false).intervalOn = true ∧
    (BatchQueue.flushRun demoQueue [2, 3] false).isProcessing = false := by
  have h := c5_failed_flush_requeues_and_restarts demoQueue [2, 3] rfl (by decide)
  exact ⟨h.1, h.2.1, h.2.2⟩

/-- The `step` body appends exactly one event. -/
theorem Trace.stepRun_appends (gen : Nat → String) (now : Nat) (o : StepOptions)
    (w : TraceWorld) :
    ∃ ev, (Trace.stepRun gen now o w).events = w.events ++ [ev] :=
  ⟨_, by rw [Trace.stepRun_eq]⟩

/-! ## Claim C4 -/

/-- Claim C4: ending a trace is idempotent.  A second `success` (or
`failure`) after a first `success` returns normally and leaves the world
— emitted events and trace state — exactly as after the single call, and
the same holds for every mixed order of end calls; while `step`, `error`
and `dataId` on the ended trace are still accepted: each returns normally
and appends its event (respectively submits its blob task). -/
theorem c4_end_idempotent :
    (∀ (w : TraceWorld) (n1 n2 : Nat) (o1 o2 : Option EndOptions),
      Trace.success n2 o2 (Trace.successRun n1 o1 w) = .ok (Trace.successRun n1 o1 w)) ∧
    (∀ (w : TraceWorld) (n1 n2 : Nat) (o1 o2 : Option EndOptions),
      Trace.failure n2 o2 (Trace.failureRun n1 o1 w) = .ok (Trace.failureRun n1 o1 w)) ∧
    (∀ (w : TraceWorld) (n1 n2 : Nat) (o1 o2 : Option EndOptions),
      Trace.failure n2 o2 (Trace.successRun n1 o1 w) = .ok (Trace.successRun n1 o1 w)) ∧
    (∀ (w : TraceWorld) (n1 n2 : Nat) (o1 o2 : Option EndOptions),
      Trace.success n2 o2 (Trace.failureRun n1 o1 w) = .ok (Trace.failureRun n1 o1 w)) ∧
    (∀ (gen : Nat → String) (now n1 : Nat) (o : StepOptions) (o1 : Option EndOptions)
        (w : TraceWorld), w.trace.enabled = true →
      ∃ w2 ev, Trace.step gen now (some o) (Trace.successRun n1 o1 w) = .ok w2 ∧
        w2.events = (Trace.successRun n1 o1 w).events ++ [ev]) ∧
    (∀ (gen : Nat → String) (now n1 : Nat) (mk : String → Option String)
        (o : ErrorOptions) (o1 : Option EndOptions) (w : TraceWorld),
        w.trace.enabled = true →
      ∃ w2 ev, Trace.error gen now mk (some o) (Trace.successRun n1 o1 w) = .ok w2 ∧
        w2.events = (Trace.successRun n1 o1 w).events ++ [ev]) ∧
    (∀ (gen : Nat → String) (n1 : Nat) (d : JValue) (k : String) (m : Option Meta)
        (o1 : Option EndOptions) (w : TraceWorld), w.trace.enabled = true →
      ∃ id w2 task, Trace.dataId gen d k m (Trace.successRun n1 o1 w) = .ok (id, w2) ∧
        w2.blobTasks = (Trace.successRun n1 o1 w).blobTasks ++ [task]) := by
  refine ⟨?_, ?_, ?_, ?_, ?_, ?_, ?_⟩
  · intro w n1 n2 o1 o2
    unfold Trace.success
    rw [Trace.successRun_of_guard n2 o2 _ (Trace.successRun_guard n1 o1 w)]
  · intro w n1 n2 o1 o2
    unfold Trace.failure
    rw [Trace.failureRun_of_guard n2 o2 _ (Trace.failureRun_guard n1 o1 w)]
  · intro w n1 n2 o1 o2
    unfold Trace.failure
    rw [Trace.failureRun_of_guard n2 o2 _ (Trace.successRun_guard n1 o1 w)]
  · intro w n1 n2 o1 o2
    unfold Trace.success
    rw [Trace.successRun_of_guard n2 o2 _ (Trace.failureRun_guard n1 o1 w)]
  · intro gen now n1 o o1 w h
    have hen : (Trace.successRun n1 o1 w).trace.enabled = true := by
      rw [Trace.successRun_enabled, h]
    obtain ⟨ev, hev⟩ := Trace.stepRun_appends gen now o (Trace.successRun n1 o1 w)
    exact ⟨_, ev, Trace.step_enabled_some gen now o _ hen, hev⟩
  · intro gen now n1 mk o o1 w h
    have hen : (Trace.successRun n1 o1 w).trace.enabled = true := by
      rw [Trace.successRun_enabled, h]
    unfold Trace.error
    rw [if_neg (by simp [hen])]
    obtain ⟨ev, hev⟩ := Trace.stepRun_appends gen now
      { stepName := "error", stepNumber := none, artifacts := none,
        metadata := some ([("error", JValue.str (match o.error with
          | .errObj e => e
          | .str s => { message := s, stack := mk s } : ErrObj).message),
          ("stack", match (match o.error with
            | .errObj e => e
            | .str s => { message := s, stack := mk s } : ErrObj).stack with
            | some st => JValue.str st
            | none => JValue.null)] ++ o.metadata.getD []) }
      (Trace.successRun n1 o1 w)
    exact ⟨_, ev, Trace.step_enabled_some gen now _ _ hen, hev⟩
  · intro gen n1 d k m o1 w h
    have hen : (Trace.successRun n1 o1 w).trace.enabled = true := by
      rw [Trace.successRun_enabled, h]
    unfold Trace.dataId Trace.dataIdRun
    rw [if_neg (by simp [hen])]
    exact ⟨_, _, _, rfl, rfl⟩

/-- Claim C4, witness: a concrete double-ended trace. -/
theorem c4_witness :
    Trace.success 2 none (Trace.successRun 1 none enabledWorld)
      = .ok (Trace.successRun 1 none enabledWorld) ∧
    ∃ w2 ev, Trace.step genU 3 (some stepOptsAuto) (Trace.successRun 1 none enabledWorld)
      = .ok w2 ∧ w2.events = (Trace.successRun 1 none enabledWorld).events ++ [ev] := by
  exact ⟨c4_end_idempotent.1 enabledWorld 1 2 none none,
    c4_end_idempotent.2.2.2.2.1 genU 3 1 stepOptsAuto none enabledWorld rfl⟩

/-! ## Claim C7 -/

/-- On a disabled trace, every single call preserves the trace state, the
emitted events and the submitted blob tasks (only the draw index may
advance, through the dummy UUID of `dataId`). -/
theorem runTraceCall_disabled (gen : Nat → String) (mk : String → Option String)
    (w : TraceWorld) (c : TraceCall) (h : w.trace.enabled = false) :
    (runTraceCall gen mk w c).trace = w.trace ∧
    (runTraceCall gen mk w c).events = w.events ∧
    (runTraceCall gen mk w c).blobTasks = w.blobTasks := by
  cases c with
  | dataId d k m =>
    simp [runTraceCall, Trace.dataId, Trace.dataIdRun, h]
  | step n o =>
    simp [runTraceCall, Trace.step, h]
  | error n o =>
    simp [runTraceCall, Trace.error, h]
  | success n o =>
    simp [runTraceCall, Trace.success, Trace.successRun, h]
  | failure n o =>
    simp [runTraceCall, Trace.failure, Trace.failureRun, h]
  | capture n o =>
    simp [runTraceCall, Trace.capture, h]

/-- On a disabled trace, a whole call sequence preserves the trace state,
the emitted events and the submitted blob tasks. -/
theorem runTraceCalls_disabled (gen : Nat → String) (mk : String → Option String)
    (w : TraceWorld) (cs : List TraceCall) (h : w.trace.enabled = false) :
    (runTraceCalls gen mk w cs).trace = w.trace ∧
    (runTraceCalls gen mk w cs).events = w.events ∧
    (runTraceCalls gen mk w cs).blobTasks = w.blobTasks := by
  induction cs generalizing w with
  | nil => exact ⟨rfl, rfl, rfl⟩
  | cons c cs ih =>
    have hc := runTraceCall_disabled gen mk w c h
    have h2 : (runTraceCall gen mk w c).trace.enabled = false := by
      rw [hc.1]; exact h
    have hrest := ih (runTraceCall gen mk w c) h2
    have hstep : runTraceCalls gen mk w (c :: cs)
        = runTraceCalls gen mk (runTraceCall gen mk w c) cs := rfl
    rw [hstep]
    exact ⟨by rw [hrest.1, hc.1], by rw [hrest.2.1, hc.2.1],
           by rw [hrest.2.2, hc.2.2]⟩

/-- Claim C7: a tracer configured with `enabled = false` creates a trace
whose `traceId` is the empty string and which starts with no emitted
events and no blob tasks; and any sequence of calls on that trace emits
no event and submits no blob task (hence triggers no spool write and no
network request, which in this architecture only happen downstream of
those queues), leaving the trace state untouched. -/
theorem c7_disabled_tracer_noop (cfg : ResolvedTracerConfig)
    (gen gen2 : Nat → String) (mk : String → Option String) (gi now : Nat)
    (o : Option TraceOptions) (cs : List TraceCall) (h : cfg.enabled = false) :
    (BaseTracer.createTrace cfg gen gi now o).trace.traceId = "" ∧
    (BaseTracer.createTrace cfg gen gi now o).events = [] ∧
    (BaseTracer.createTrace cfg gen gi now o).blobTasks = [] ∧
    (runTraceCalls gen2 mk (BaseTracer.createTrace cfg gen gi now o) cs).events = [] ∧
    (runTraceCalls gen2 mk (BaseTracer.createTrace cfg gen gi now o) cs).blobTasks = [] ∧
    (runTraceCalls gen2 mk (BaseTracer.createTrace cfg gen gi now o) cs).trace
      = (BaseTracer.createTrace cfg gen gi now o).trace := by
  have hct : BaseTracer.createTrace cfg gen gi now o =
      { trace := { traceId := "", projectId := cfg.projectId, enabled := false,
                   currentStepNumber := 0, ended := false },
        genIdx := gi, events := [], blobTasks := [] } := by
    unfold BaseTracer.createTrace
    rw [if_pos h]
  have hrun := runTraceCalls_disabled gen2 mk (BaseTracer.createTrace cfg gen gi now o) cs
    (by rw [hct])
  refine ⟨by rw [hct], by rw [hct], by rw [hct], ?_, ?_, hrun.1⟩
  · rw [hrun.2.1, hct]
  · rw [hrun.2.2, hct]

/-- Claim C7, witness: a disabled tracer and a concrete call sequence
covering every method. -/
theorem c7_witness :
    (runTraceCalls genU (fun _ => none)
        (BaseTracer.createTrace offConfig genU 0 0 none) demoCallSeq).events = [] ∧
    (runTraceCalls genU (fun _ => none)
        (BaseTracer.createTrace offConfig genU 0 0 none) demoCallSeq).blobTasks = [] ∧
    (BaseTracer.createTrace offConfig genU 0 0 none).trace.traceId = "" := by
  have h := c7_disabled_tracer_noop offConfig genU genU (fun _ => none) 0 0 none
    demoCallSeq rfl
  exact ⟨h.2.2.2.1, h.2.2.2.2.1, h.1⟩

/-! ## Claim C3 -/

/-- A run of `step` calls only ever appends to the emitted events. -/
theorem runSteps_events_extend (gen : Nat → String) (w : TraceWorld)
    (cs : List StepCall) :
    ∃ tail, (runSteps gen w cs).events = w.events ++ tail := by
  induction cs generalizing w with
  | nil => exact ⟨[], by simp [runSteps]⟩
  | cons c cs ih =>
    have hstep : runSteps gen w (c :: cs)
        = runSteps gen
            (match Trace.step gen c.now (some c.options) w with
              | .ok w2 => w2
              | .error _ => w) cs := rfl
    have h1 : ∃ t1,
        (match Trace.step gen c.now (some c.options) w with
          | .ok w2 => w2
          | .error _ => w).events = w.events ++ t1 := by
      by_cases he : w.trace.enabled = true
      · rw [Trace.step_enabled_some gen c.now c.options w he]
        obtain ⟨ev, hev⟩ := Trace.stepRun_appends gen c.now c.options w
        exact ⟨[ev], hev⟩
      · have he2 : w.trace.enabled = false := by
          simpa using he
        simp [Trace.step, he2]
    obtain ⟨t1, ht1⟩ := h1
    obtain ⟨t2, ht2⟩ := ih
      (match Trace.step gen c.now (some c.options) w with
        | .ok w2 => w2
        | .error _ => w)
    exact ⟨t1 ++ t2, by rw [hstep, ht2, ht1, List.append_assoc]⟩

/-- `emitNums` unrolled one call. -/
theorem emitNums_cons (c : Int) (o : Option Int) (os : List (Option Int)) :
    emitNums c (o :: os) = stepEmitted c o :: emitNums (stepCounterNext c o) os := by
  cases o <;> rfl

/-- Simulation: on an enabled trace, the step numbers emitted by a run of
`step` calls are exactly the `emitNums` recurrence from the current
counter over the per-call optional numbers. -/
theorem newStepNumbers_eq_emitNums (gen : Nat → String) (w : TraceWorld)
    (cs : List StepCall) (h : w.trace.enabled = true) :
    newStepNumbers gen w cs
      = emitNums w.trace.currentStepNumber (cs.map (fun c => c.options.stepNumber)) := by
  induction cs generalizing w with
  | nil =>
    simp [newStepNumbers, runSteps, emittedStepNumbers, emitNums, List.drop_length]
  | cons c cs ih =>
    have hstep : runSteps gen w (c :: cs)
        = runSteps gen (Trace.stepRun gen c.now c.options w) cs := by
      show runSteps gen
        (match Trace.step gen c.now (some c.options) w with
          | .ok w2 => w2
          | .error _ => w) cs = _
      rw [Trace.step_enabled_some gen c.now c.options w h]
    have hw1 := Trace.stepRun_eq gen c.now c.options w
    have hen1 : (Trace.stepRun gen c.now c.options w).trace.enabled = true := by
      rw [hw1]; exact h
    have hcnt1 : (Trace.stepRun gen c.now c.options w).trace.currentStepNumber
        = stepCounterNext w.trace.currentStepNumber c.options.stepNumber := by
      rw [hw1]
    have hev1 : (Trace.stepRun gen c.now c.options w).events
        = w.events ++ [Event.step (gen w.genIdx) w.trace.traceId w.trace.projectId
            c.options.stepName
            (stepEmitted w.trace.currentStepNumber c.options.stepNumber)
            ((c.options.artifacts.getD []).map
              (fun a => { dataId := a.dataId, type := a.type }))
            (c.options.metadata.getD []) c.now] := by
      rw [hw1]
    obtain ⟨tail, htail⟩ :=
      runSteps_events_extend gen (Trace.stepRun gen c.now c.options w) cs
    have hdrop1 : (runSteps gen w (c :: cs)).events.drop w.events.length
        = Event.step (gen w.genIdx) w.trace.traceId w.trace.projectId
            c.options.stepName
            (stepEmitted w.trace.currentStepNumber c.options.stepNumber)
            ((c.options.artifacts.getD []).map
              (fun a => { dataId := a.dataId, type := a.type }))
            (c.options.metadata.getD []) c.now :: tail := by
      rw [hstep, htail, hev1, List.append_assoc, List.drop_left, List.singleton_append]
    have hdrop2 : (runSteps gen (Trace.stepRun gen c.now c.options w) cs).events.drop
        (Trace.stepRun gen c.now c.options w).events.length = tail := by
      rw [htail, List.drop_left]
    have hih := ih (Trace.stepRun gen c.now c.options w) hen1
    unfold newStepNumbers at hih ⊢
    rw [hdrop1, hdrop2] at *
    rw [List.map_cons, emitNums_cons]
    simp only [emittedStepNumbers, List.filterMap_cons]
    rw [← emittedStepNumbers]
    rw [hih, hcnt1]

/-- The auto-incremented positions of `emitNums` are exactly `autoNums`. -/
theorem zip_emitNums_filterMap (c : Int) (os : List (Option Int)) :
    (os.zip (emitNums c os)).filterMap
        (fun p =>
          match p.1 with
          | none => some p.2
          | some _ => none)
      = autoNums c os := by
  induction os generalizing c with
  | nil => rfl
  | cons o os ih =>
    cases o <;> simp [emitNums, autoNums, List.filterMap_cons, ih]

/-- Every entry of `autoNums c os` exceeds the starting counter. -/
theorem autoNums_lt (c : Int) (os : List (Option Int)) :
    ∀ x ∈ autoNums c os, c < x := by
  induction os generalizing c with
  | nil => simp [autoNums]
  | cons o os ih =>
    cases o with
    | none =>
      intro x hx
      simp only [autoNums, List.mem_cons] at hx
      rcases hx with rfl | hx
      · exact lt_add_one c
      · exact lt_trans (lt_add_one c) (ih (c + 1) x hx)
    | some n =>
      intro x hx
      simp only [autoNums] at hx
      exact lt_of_le_of_lt (le_max_left c n) (ih (max c n) x hx)

/-- `autoNums` is strictly increasing. -/
theorem autoNums_pairwise (c : Int) (os : List (Option Int)) :
    List.Pairwise (fun a b : Int => a < b) (autoNums c os) := by
  induction os generalizing c with
  | nil => simp [autoNums]
  | cons o os ih =>
    cases o with
    | none =>
      simp only [autoNums, List.pairwise_cons]
      exact ⟨fun x hx => autoNums_lt (c + 1) os x hx, ih (c + 1)⟩
    | some n =>
      simpa [autoNums] using ih (max c n)

/-- Claim C3 (amended): on a single enabled trace, a caller-supplied
explicit `stepNumber` is emitted as given and raises the internal counter
to `max(counter, supplied)`; the numbers emitted by the auto-incremented
calls of any run are strictly increasing; and after supplying
`stepNumber = 7` two auto-increments emit `8` then `9` (observed
`7, 8, 9`).  The full emitted sequence, however, need not be
non-decreasing: a supplied number below an earlier emission is emitted
as supplied (see the counterexample). -/
theorem c3_amended_step_numbering :
    (∀ (gen : Nat → String) (now : Nat) (o : StepOptions) (w : TraceWorld) (n : Int),
      w.trace.enabled = true → o.stepNumber = some n →
      Trace.step gen now (some o) w = .ok (Trace.stepRun gen now o w) ∧
      (Trace.stepRun gen now o w).trace.currentStepNumber
        = max w.trace.currentStepNumber n) ∧
    (∀ (gen : Nat → String) (w : TraceWorld) (cs : List StepCall),
      w.trace.enabled = true →
      List.Pairwise (fun a b : Int => a < b) (newAutoStepNumbers gen w cs)) ∧
    newStepNumbers genU enabledWorld demoCalls789 = [7, 8, 9] := by
  refine ⟨?_, ?_, by rfl⟩
  · intro gen now o w n h hn
    refine ⟨Trace.step_enabled_some gen now o w h, ?_⟩
    rw [Trace.stepRun_eq]
    simp [stepCounterNext, hn]
  · intro gen w cs h
    unfold newAutoStepNumbers
    rw [newStepNumbers_eq_emitNums gen w cs h, zip_emitNums_filterMap]
    exact autoNums_pairwise _ _

/-- Claim C3, witness for the amended statement: strict monotonicity of
the auto-incremented numbers on the concrete `7, auto, auto` run. -/
theorem c3_witness :
    List.Pairwise (fun a b : Int => a < b)
      (newAutoStepNumbers genU enabledWorld demoCalls789) :=
  c3_amended_step_numbering.2.1 genU enabledWorld demoCalls789 rfl

/-- Claim C3, counterexample: supplying `stepNumber = 7` and then
`stepNumber = 3` emits `7, 3`, so the emitted step numbers of a trace are
not a non-decreasing sequence. -/
theorem c3_counterexample_not_monotone :
    newStepNumbers genU enabledWorld demoCallsDecreasing = [7, 3] ∧
    ¬ List.Pairwise (fun a b : Int => a ≤ b)
        (newStepNumbers genU enabledWorld demoCallsDecreasing) := by
  refine ⟨rfl, fun hp => ?_⟩
  have hp2 : List.Pairwise (fun a b : Int => a ≤ b) [7, 3] := hp
  have h73 : (7 : Int) ≤ 3 := (List.pairwise_cons.mp hp2).1 3 (by simp)
  omega

/-! ## Claim C2: association-map and index lemmas -/

/-- `keysOf` over a cons. -/
theorem keysOf_cons {α : Type} (p : String × α) (l : List (String × α)) :
    keysOf (p :: l) = p.1 :: keysOf l := rfl

/-- `keysOf` over an append. -/
theorem keysOf_append {α : Type} (l1 l2 : List (String × α)) :
    keysOf (l1 ++ l2) = keysOf l1 ++ keysOf l2 := by
  simp [keysOf]

/-- `mapFind?` misses exactly the absent keys. -/
theorem mapFind?_eq_none_iff {α : Type} {l : List (String × α)} {k : String} :
    mapFind? l k = none ↔ k ∉ keysOf l := by
  induction l with
  | nil => simp [mapFind?, keysOf]
  | cons p rest ih =>
    rcases p with ⟨k1, v1⟩
    rw [keysOf_cons]
    by_cases h : k1 = k
    · subst h
      simp [mapFind?]
    · have h2 : ¬ k = k1 := fun e => h e.symm
      simp [mapFind?, h, h2, ih, List.mem_cons]

/-- A present key has a value. -/
theorem mapFind?_isSome_of_mem {α : Type} {l : List (String × α)} {k : String}
    (h : k ∈ keysOf l) : ∃ v, mapFind? l k = some v := by
  cases hf : mapFind? l k with
  | none => exact absurd h (mapFind?_eq_none_iff.mp hf)
  | some v => exact ⟨v, rfl⟩

/-- Erasing a binding erases its key. -/
theorem keysOf_mapErase {α : Type} (l : List (String × α)) (k : String) :
    keysOf (mapErase l k) = (keysOf l).erase k := by
  induction l with
  | nil => rfl
  | cons p rest ih =>
    rcases p with ⟨k1, v1⟩
    by_cases h : k1 = k
    · subst h
      rw [mapErase, if_pos rfl, keysOf_cons, List.erase_cons_head]
    · rw [mapErase, if_neg h, keysOf_cons, keysOf_cons,
        List.erase_cons_tail (by simpa using h), ih]

/-- `sizeSumBy` over a cons. -/
theorem sizeSumBy_cons {α : Type} (f : α → Nat) (k : String) (v : α)
    (l : List (String × α)) :
    sizeSumBy f ((k, v) :: l) = f v + sizeSumBy f l := by
  simp [sizeSumBy]

/-- Erasing the binding of `k` subtracts its size. -/
theorem sizeSumBy_mapErase {α : Type} (f : α → Nat) {l : List (String × α)}
    {k : String} {e : α} (h : mapFind? l k = some e) :
    sizeSumBy f (mapErase l k) = sizeSumBy f l - f e := by
  induction l with
  | nil => simp [mapFind?] at h
  | cons p rest ih =>
    rcases p with ⟨k1, v1⟩
    rw [mapFind?] at h
    by_cases hk : k1 = k
    · rw [if_pos hk] at h
      obtain rfl : v1 = e := by injection h
      rw [mapErase, if_pos hk, sizeSumBy_cons]
      omega
    · rw [if_neg hk] at h
      rw [mapErase, if_neg hk, sizeSumBy_cons, sizeSumBy_cons, ih h]
      omega

/-- `mapSet` on an absent key appends the new key. -/
theorem keysOf_mapSet_none {α : Type} {l : List (String × α)} {k : String}
    (v : α) (h : mapFind? l k = none) :
    keysOf (mapSet l k v) = keysOf l ++ [k] := by
  induction l with
  | nil => rfl
  | cons p rest ih =>
    rcases p with ⟨k1, v1⟩
    rw [mapFind?] at h
    by_cases hk : k1 = k
    · rw [if_pos hk] at h
      exact absurd h (by simp)
    · rw [if_neg hk] at h
      rw [mapSet, if_neg hk, keysOf_cons, keysOf_cons, ih h]
      rfl

/-- `mapSet` on a present key keeps the key list. -/
theorem keysOf_mapSet_some {α : Type} {l : List (String × α)} {k : String}
    {e : α} (v : α) (h : mapFind? l k = some e) :
    keysOf (mapSet l k v) = keysOf l := by
  induction l with
  | nil => simp [mapFind?] at h
  | cons p rest ih =>
    rcases p with ⟨k1, v1⟩
    rw [mapFind?] at h
    by_cases hk : k1 = k
    · rw [mapSet, if_pos hk, keysOf_cons, keysOf_cons, hk]
    · rw [if_neg hk] at h
      rw [mapSet, if_neg hk, keysOf_cons, keysOf_cons, ih h]

/-- `mapSet` on an absent key adds the new size. -/
theorem sizeSumBy_mapSet_none {α : Type} (f : α → Nat) {l : List (String × α)}
    {k : String} (v : α) (h : mapFind? l k = none) :
    sizeSumBy f (mapSet l k v) = sizeSumBy f l + f v := by
  induction l with
  | nil => simp [mapSet, sizeSumBy]
  | cons p rest ih =>
    rcases p with ⟨k1, v1⟩
    rw [mapFind?] at h
    by_cases hk : k1 = k
    · rw [if_pos hk] at h
      exact absurd h (by simp)
    · rw [if_neg hk] at h
      rw [mapSet, if_neg hk, sizeSumBy_cons, sizeSumBy_cons, ih h]
      omega

/-- `mapSet` on a present key swaps the old size for the new one. -/
theorem sizeSumBy_mapSet_some {α : Type} (f : α → Nat) {l : List (String × α)}
    {k : String} {e : α} (v : α) (h : mapFind? l k = some e) :
    sizeSumBy f (mapSet l k v) = sizeSumBy f l - f e + f v := by
  induction l with
  | nil => simp [mapFind?] at h
  | cons p rest ih =>
    rcases p with ⟨k1, v1⟩
    rw [mapFind?] at h
    by_cases hk : k1 = k
    · rw [if_pos hk] at h
      obtain rfl : v1 = e := by injection h
      rw [mapSet, if_pos hk, sizeSumBy_cons, sizeSumBy_cons]
      omega
    · rw [if_neg hk] at h
      rw [mapSet, if_neg hk, sizeSumBy_cons, sizeSumBy_cons, ih h]
      omega

/-- `findIndex` succeeds on a present key. -/
theorem findIndex_mem_keys {k : String} {l : List (String × Nat)}
    (h : k ∈ keysOf l) :
    ∃ i, findIndex (fun e => e.1 == k) l = some i := by
  induction l with
  | nil => simp [keysOf] at h
  | cons p rest ih =>
    by_cases hp : (p.1 == k) = true
    · exact ⟨0, by simp [findIndex, hp]⟩
    · have h2 : k ∈ keysOf rest := by
        rw [keysOf_cons, List.mem_cons] at h
        rcases h with h3 | h3
        · exact absurd (by simp [h3]) hp
        · exact h3
      obtain ⟨j, hj⟩ := ih h2
      exact ⟨j + 1, by simp [findIndex, hp, hj]⟩

/-- Splicing at the found index erases the key. -/
theorem keysOf_removeAt_findIndex {k : String} {l : List (String × Nat)} {i : Nat}
    (h : findIndex (fun e => e.1 == k) l = some i) :
    keysOf (removeAt l i) = (keysOf l).erase k := by
  induction l generalizing i with
  | nil => simp [findIndex] at h
  | cons p rest ih =>
    by_cases hp : (p.1 == k) = true
    · have hi : i = 0 := by
        rw [findIndex, if_pos hp] at h
        simpa [eq_comm] using h
      subst hi
      have hpk : p.1 = k := by simpa using hp
      rw [removeAt, keysOf_cons, ← hpk, List.erase_cons_head]
    · rw [findIndex, if_neg hp] at h
      rcases Option.map_eq_some'.mp h with ⟨j, hj, hij⟩
      subst hij
      have hpk : ¬ p.1 = k := by simpa using hp
      rw [removeAt, keysOf_cons, keysOf_cons,
        List.erase_cons_tail (by simpa using hpk), ih hj]

/-! ## Claim C2: MemoryStorage lemmas -/

/-- Deleting an absent id is a no-op. -/
theorem MemoryStorage.mem_delete_absent {s : MemoryStorage} {id : String}
    (h : mapFind? s.entries id = none) : s.delete id = s := by
  simp [MemoryStorage.delete, h]

/-- Closed form of deleting a present id whose sequence index is `i`. -/
theorem MemoryStorage.mem_delete_eq {s : MemoryStorage} {id : String}
    {e : MemoryEntry} {i : Nat} (hfind : mapFind? s.entries id = some e)
    (hi : findIndex (fun p => p.1 == id) s.entriesByTime = some i) :
    s.delete id =
      { s with entries := mapErase s.entries id,
               currentSize := s.currentSize - e.data.length,
               entriesByTime := removeAt s.entriesByTime i } := by
  simp only [MemoryStorage.delete, hfind, hi]

/-- Deleting a present id removes the binding, splices the sequence entry
out and subtracts the entry size; well-formedness is preserved. -/
theorem MemoryStorage.mem_delete_spec {s : MemoryStorage} {id : String}
    {e : MemoryEntry} (hWF : s.WF) (hfind : mapFind? s.entries id = some e) :
    (s.delete id).WF ∧
    (s.delete id).currentSize = s.currentSize - e.data.length ∧
    keysOf (s.delete id).entriesByTime = (keysOf s.entriesByTime).erase id ∧
    (s.delete id).maxSize = s.maxSize := by
  obtain ⟨hnd, hperm, hsum⟩ := hWF
  have hmem : id ∈ keysOf s.entries := by
    by_contra hmem
    rw [mapFind?_eq_none_iff.mpr hmem] at hfind
    exact Option.noConfusion hfind
  have hmemT : id ∈ keysOf s.entriesByTime := hperm.mem_iff.mpr hmem
  obtain ⟨i, hi⟩ := findIndex_mem_keys hmemT
  rw [MemoryStorage.mem_delete_eq hfind hi]
  refine ⟨⟨?_, ?_, ?_⟩, rfl, keysOf_removeAt_findIndex hi, rfl⟩
  · rw [keysOf_mapErase]
    exact hnd.erase id
  · rw [keysOf_mapErase, keysOf_removeAt_findIndex hi]
    exact hperm.erase id
  · rw [sizeSumBy_mapErase _ hfind, hsum]

/-- Deleting the id at the head of `entriesByTime` pops that head. -/
theorem MemoryStorage.mem_delete_head_ebt {s : MemoryStorage} {oid : String}
    {ot : Nat} {rest : List (String × Nat)} {e : MemoryEntry}
    (hfind : mapFind? s.entries oid = some e)
    (hebt : s.entriesByTime = (oid, ot) :: rest) :
    (s.delete oid).entriesByTime = rest := by
  have hidx : findIndex (fun p => p.1 == oid) s.entriesByTime = some 0 := by
    rw [hebt]
    simp [findIndex]
  rw [MemoryStorage.mem_delete_eq hfind hidx, hebt]
  rfl

/-- A well-formed storage with an empty sequence is empty. -/
theorem MemoryStorage.mem_WF_size_eq_zero {s : MemoryStorage} (hWF : s.WF)
    (h : s.entriesByTime = []) : s.currentSize = 0 := by
  obtain ⟨hnd, hperm, hsum⟩ := hWF
  rw [h] at hperm
  have hkeys : keysOf s.entries = [] := hperm.symm.eq_nil
  have hent : s.entries = [] := List.map_eq_nil_iff.mp hkeys
  rw [hsum, hent]
  rfl

/-- Invariant preservation and postcondition of the cleanup loop: the
result is well-formed, fits the quota unless everything was evicted, and
its sequence is a suffix of the input sequence obtained by dropping
oldest entries first — with at least one eviction when the loop was
entered over quota with a non-empty sequence. -/
theorem MemoryStorage.mem_cleanupFuel_spec (maxSize : Int) (fuel : Nat) :
    ∀ s : MemoryStorage, s.WF → s.entriesByTime.length ≤ fuel →
      (MemoryStorage.cleanupFuel maxSize fuel s).WF ∧
      (MemoryStorage.cleanupFuel maxSize fuel s).maxSize = s.maxSize ∧
      ((MemoryStorage.cleanupFuel maxSize fuel s).currentSize ≤ maxSize ∨
        (MemoryStorage.cleanupFuel maxSize fuel s).entriesByTime = []) ∧
      ∃ kdrop, (MemoryStorage.cleanupFuel maxSize fuel s).entriesByTime
          = s.entriesByTime.drop kdrop ∧
        (s.currentSize > maxSize → s.entriesByTime ≠ [] → 1 ≤ kdrop) := by
  induction fuel with
  | zero =>
    intro s hWF hlen
    have hnil : s.entriesByTime = [] := List.length_eq_zero.mp (Nat.le_zero.mp hlen)
    have hred : MemoryStorage.cleanupFuel maxSize 0 s = s := rfl
    rw [hred]
    exact ⟨hWF, rfl, Or.inr hnil, 0, by simp, fun _ hne => absurd hnil hne⟩
  | succ fuel ih =>
    intro s hWF hlen
    by_cases hgt : s.currentSize > maxSize
    · rcases hebt : s.entriesByTime with _ | ⟨⟨oid, ot⟩, rest⟩
      · have hred : MemoryStorage.cleanupFuel maxSize (fuel + 1) s = s := by
          rw [MemoryStorage.cleanupFuel, if_pos hgt, hebt]
        rw [hred]
        exact ⟨hWF, rfl, Or.inr hebt, 0, by simp [hebt], fun _ hne => absurd rfl hne⟩
      · have hmemT : oid ∈ keysOf s.entriesByTime := by
          rw [hebt, keysOf_cons]
          exact List.mem_cons_self _ _
        have hmem : oid ∈ keysOf s.entries := hWF.2.1.mem_iff.mp hmemT
        obtain ⟨e, he⟩ := mapFind?_isSome_of_mem hmem
        have hdel := MemoryStorage.mem_delete_spec hWF he
        have hebt2 : (s.delete oid).entriesByTime = rest :=
          MemoryStorage.mem_delete_head_ebt he hebt
        have hlen2 : (s.delete oid).entriesByTime.length ≤ fuel := by
          rw [hebt2]
          rw [hebt] at hlen
          simpa using hlen
        have hrec := ih (s.delete oid) hdel.1 hlen2
        have hred : MemoryStorage.cleanupFuel maxSize (fuel + 1) s
            = MemoryStorage.cleanupFuel maxSize fuel (s.delete oid) := by
          rw [MemoryStorage.cleanupFuel, if_pos hgt, hebt]
        rw [hred]
        refine ⟨hrec.1, by rw [hrec.2.1, hdel.2.2.2], hrec.2.2.1, ?_⟩
        obtain ⟨k2, hk2, _⟩ := hrec.2.2.2
        refine ⟨k2 + 1, ?_, fun _ _ => by omega⟩
        rw [hk2, hebt2, List.drop_succ_cons]
    · have hred : MemoryStorage.cleanupFuel maxSize (fuel + 1) s = s := by
        rw [MemoryStorage.cleanupFuel, if_neg hgt]
      rw [hred]
      exact ⟨hWF, rfl, Or.inl (le_of_not_lt hgt), 0, by simp,
        fun hgt2 _ => absurd hgt2 hgt⟩

/-- `keysOf` of a one-binding map. -/
theorem keysOf_singleton {α : Type} (k : String) (v : α) :
    keysOf [(k, v)] = [k] := rfl

/-- Closed form of the insert phase when the id is new. -/
theorem MemoryStorage.mem_writeInsert_eq_none (s : MemoryStorage) (id data : String)
    (now : Nat) (hfind : mapFind? s.entries id = none) :
    s.writeInsert id data now =
      { s with entries := mapSet s.entries id { id := id, data := data, createdAt := now },
               entriesByTime := s.entriesByTime ++ [(id, now)],
               currentSize := s.currentSize + data.length } := by
  simp only [MemoryStorage.writeInsert, hfind]

/-- Closed form of the insert phase when a prior entry with the same id
exists at sequence index `i`. -/
theorem MemoryStorage.mem_writeInsert_eq_some (s : MemoryStorage) (id data : String)
    (now : Nat) {old : MemoryEntry} {i : Nat}
    (hfind : mapFind? s.entries id = some old)
    (hi : findIndex (fun e => e.1 == id) s.entriesByTime = some i) :
    s.writeInsert id data now =
      { s with entries := mapSet s.entries id { id := id, data := data, createdAt := now },
               entriesByTime := removeAt s.entriesByTime i ++ [(id, now)],
               currentSize := s.currentSize - old.data.length + data.length } := by
  simp only [MemoryStorage.writeInsert, hfind, hi]

/-- The insert phase preserves well-formedness, keeps the quota field and
leaves a non-empty sequence. -/
theorem MemoryStorage.mem_writeInsert_spec (s : MemoryStorage) (id data : String)
    (now : Nat) (hWF : s.WF) :
    (s.writeInsert id data now).WF ∧
    (s.writeInsert id data now).maxSize = s.maxSize ∧
    (s.writeInsert id data now).entriesByTime ≠ [] := by
  obtain ⟨hnd, hperm, hsum⟩ := hWF
  cases hfind : mapFind? s.entries id with
  | none =>
    have hnm : id ∉ keysOf s.entries := mapFind?_eq_none_iff.mp hfind
    rw [MemoryStorage.mem_writeInsert_eq_none s id data now hfind]
    refine ⟨⟨?_, ?_, ?_⟩, rfl, by simp⟩
    · rw [keysOf_mapSet_none _ hfind]
      simp [List.nodup_append, hnd, hnm]
    · rw [keysOf_mapSet_none _ hfind, keysOf_append, keysOf_singleton]
      exact hperm.append_right [id]
    · rw [sizeSumBy_mapSet_none _ _ hfind, ← hsum]
  | some old =>
    have hmem : id ∈ keysOf s.entries := by
      by_contra hmem
      rw [mapFind?_eq_none_iff.mpr hmem] at hfind
      exact Option.noConfusion hfind
    have hmemT : id ∈ keysOf s.entriesByTime := hperm.mem_iff.mpr hmem
    obtain ⟨i, hi⟩ := findIndex_mem_keys hmemT
    rw [MemoryStorage.mem_writeInsert_eq_some s id data now hfind hi]
    refine ⟨⟨?_, ?_, ?_⟩, rfl, by simp⟩
    · rw [keysOf_mapSet_some _ hfind]
      exact hnd
    · rw [keysOf_mapSet_some _ hfind, keysOf_append, keysOf_singleton,
        keysOf_removeAt_findIndex hi]
      have p1 : ((keysOf s.entriesByTime).erase id ++ [id]).Perm
          ((keysOf s.entries).erase id ++ [id]) := (hperm.erase id).append_right [id]
      have p2 : ((keysOf s.entries).erase id ++ [id]).Perm
          (id :: (keysOf s.entries).erase id) := List.perm_append_singleton id _
      have p3 : (id :: (keysOf s.entries).erase id).Perm (keysOf s.entries) :=
        (List.perm_cons_erase hmem).symm
      exact (p1.trans p2).trans p3
    · rw [sizeSumBy_mapSet_some _ _ hfind, ← hsum]

/-- Claim C2 core for the memory backend: a write from a well-formed
state yields a well-formed state whose tracked size fits the quota, and
whose sequence is the inserted sequence minus a front (oldest-first)
segment, non-trivial whenever the insert overshot the quota. -/
theorem MemoryStorage.mem_write_spec (s : MemoryStorage) (id data : String)
    (now : Nat) (hWF : s.WF) :
    (s.write id data now).WF ∧
    (s.write id data now).currentSize ≤ (s.maxSize : Int) ∧
    ∃ kdrop, (s.write id data now).entriesByTime
        = (s.writeInsert id data now).entriesByTime.drop kdrop ∧
      ((s.writeInsert id data now).currentSize > (s.maxSize : Int) → 1 ≤ kdrop) := by
  have hins := MemoryStorage.mem_writeInsert_spec s id data now hWF
  have hmax := hins.2.1
  unfold MemoryStorage.write
  by_cases hgt : (s.writeInsert id data now).currentSize
      > ((s.writeInsert id data now).maxSize : Int)
  · rw [if_pos hgt]
    unfold MemoryStorage.cleanup
    have h := MemoryStorage.mem_cleanupFuel_spec
      ((s.writeInsert id data now).maxSize : Int)
      (s.writeInsert id data now).entriesByTime.length
      (s.writeInsert id data now) hins.1 le_rfl
    refine ⟨h.1, ?_, ?_⟩
    · rcases h.2.2.1 with hle | hnil
      · exact hle.trans_eq (by rw [hmax])
      · rw [MemoryStorage.mem_WF_size_eq_zero h.1 hnil]
        exact Int.natCast_nonneg _
    · obtain ⟨k, hk, hcond⟩ := h.2.2.2
      exact ⟨k, hk, fun _ => hcond hgt hins.2.2⟩
  · rw [if_neg hgt]
    rw [hmax] at hgt
    exact ⟨hins.1, le_of_not_lt hgt, 0, by simp, fun h2 => absurd h2 hgt⟩

/-! ## Claim C2: DiskStorage lemmas (mirroring the memory backend) -/

/-- Deleting an absent id is a no-op. -/
theorem DiskStorage.disk_delete_absent {s : DiskStorage} {id : String}
    (h : mapFind? s.entries id = none) : s.delete id = s := by
  simp [DiskStorage.delete, h]

/-- Closed form of deleting a present id whose sequence index is `i`. -/
theorem DiskStorage.disk_delete_eq {s : DiskStorage} {id : String}
    {e : StorageEntry} {i : Nat} (hfind : mapFind? s.entries id = some e)
    (hi : findIndex (fun p => p.1 == id) s.entriesByTime = some i) :
    s.delete id =
      { s with entries := mapErase s.entries id,
               currentSize := s.currentSize - e.size,
               entriesByTime := removeAt s.entriesByTime i } := by
  simp only [DiskStorage.delete, hfind, hi]

/-- Deleting a present id removes the registry binding, splices the
sequence entry out and subtracts the entry size; well-formedness is
preserved. -/
theorem DiskStorage.disk_delete_spec {s : DiskStorage} {id : String}
    {e : StorageEntry} (hWF : s.WF) (hfind : mapFind? s.entries id = some e) :
    (s.delete id).WF ∧
    (s.delete id).currentSize = s.currentSize - e.size ∧
    keysOf (s.delete id).entriesByTime = (keysOf s.entriesByTime).erase id ∧
    (s.delete id).maxSize = s.maxSize := by
  obtain ⟨hnd, hperm, hsum⟩ := hWF
  have hmem : id ∈ keysOf s.entries := by
    by_contra hmem
    rw [mapFind?_eq_none_iff.mpr hmem] at hfind
    exact Option.noConfusion hfind
  have hmemT : id ∈ keysOf s.entriesByTime := hperm.mem_iff.mpr hmem
  obtain ⟨i, hi⟩ := findIndex_mem_keys hmemT
  rw [DiskStorage.disk_delete_eq hfind hi]
  refine ⟨⟨?_, ?_, ?_⟩, rfl, keysOf_removeAt_findIndex hi, rfl⟩
  · rw [keysOf_mapErase]
    exact hnd.erase id
  · rw [keysOf_mapErase, keysOf_removeAt_findIndex hi]
    exact hperm.erase id
  · rw [sizeSumBy_mapErase _ hfind, hsum]

/-- Deleting the id at the head of `entriesByTime` pops that head. -/
theorem DiskStorage.disk_delete_head_ebt {s : DiskStorage} {oid : String}
    {ot : Nat} {rest : List (String × Nat)} {e : StorageEntry}
    (hfind : mapFind? s.entries oid = some e)
    (hebt : s.entriesByTime = (oid, ot) :: rest) :
    (s.delete oid).entriesByTime = rest := by
  have hidx : findIndex (fun p => p.1 == oid) s.entriesByTime = some 0 := by
    rw [hebt]
    simp [findIndex]
  rw [DiskStorage.disk_delete_eq hfind hidx, hebt]
  rfl

/-- A well-formed storage with an empty sequence is empty. -/
theorem DiskStorage.disk_WF_size_eq_zero {s : DiskStorage} (hWF : s.WF)
    (h : s.entriesByTime = []) : s.currentSize = 0 := by
  obtain ⟨hnd, hperm, hsum⟩ := hWF
  rw [h] at hperm
  have hkeys : keysOf s.entries = [] := hperm.symm.eq_nil
  have hent : s.entries = [] := List.map_eq_nil_iff.mp hkeys
  rw [hsum, hent]
  rfl

/-- Invariant preservation and postcondition of the disk cleanup loop,
as for the memory backend. -/
theorem DiskStorage.disk_cleanupFuel_spec (maxSize : Int) (fuel : Nat) :
    ∀ s : DiskStorage, s.WF → s.entriesByTime.length ≤ fuel →
      (DiskStorage.cleanupFuel maxSize fuel s).WF ∧
      (DiskStorage.cleanupFuel maxSize fuel s).maxSize = s.maxSize ∧
      ((DiskStorage.cleanupFuel maxSize fuel s).currentSize ≤ maxSize ∨
        (DiskStorage.cleanupFuel maxSize fuel s).entriesByTime = []) ∧
      ∃ kdrop, (DiskStorage.cleanupFuel maxSize fuel s).entriesByTime
          = s.entriesByTime.drop kdrop ∧
        (s.currentSize > maxSize → s.entriesByTime ≠ [] → 1 ≤ kdrop) := by
  induction fuel with
  | zero =>
    intro s hWF hlen
    have hnil : s.entriesByTime = [] := List.length_eq_zero.mp (Nat.le_zero.mp hlen)
    have hred : DiskStorage.cleanupFuel maxSize 0 s = s := rfl
    rw [hred]
    exact ⟨hWF, rfl, Or.inr hnil, 0, by simp, fun _ hne => absurd hnil hne⟩
  | succ fuel ih =>
    intro s hWF hlen
    by_cases hgt : s.currentSize > maxSize
    · rcases hebt : s.entriesByTime with _ | ⟨⟨oid, ot⟩, rest⟩
      · have hred : DiskStorage.cleanupFuel maxSize (fuel + 1) s = s := by
          rw [DiskStorage.cleanupFuel, if_pos hgt, hebt]
        rw [hred]
        exact ⟨hWF, rfl, Or.inr hebt, 0, by simp [hebt], fun _ hne => absurd rfl hne⟩
      · have hmemT : oid ∈ keysOf s.entriesByTime := by
          rw [hebt, keysOf_cons]
          exact List.mem_cons_self _ _
        have hmem : oid ∈ keysOf s.entries := hWF.2.1.mem_iff.mp hmemT
        obtain ⟨e, he⟩ := mapFind?_isSome_of_mem hmem
        have hdel := DiskStorage.disk_delete_spec hWF he
        have hebt2 : (s.delete oid).entriesByTime = rest :=
          DiskStorage.disk_delete_head_ebt he hebt
        have hlen2 : (s.delete oid).entriesByTime.length ≤ fuel := by
          rw [hebt2]
          rw [hebt] at hlen
          simpa using hlen
        have hrec := ih (s.delete oid) hdel.1 hlen2
        have hred : DiskStorage.cleanupFuel maxSize (fuel + 1) s
            = DiskStorage.cleanupFuel maxSize fuel (s.delete oid) := by
          rw [DiskStorage.cleanupFuel, if_pos hgt, hebt]
        rw [hred]
        refine ⟨hrec.1, by rw [hrec.2.1, hdel.2.2.2], hrec.2.2.1, ?_⟩
        obtain ⟨k2, hk2, _⟩ := hrec.2.2.2
        refine ⟨k2 + 1, ?_, fun _ _ => by omega⟩
        rw [hk2, hebt2, List.drop_succ_cons]
    · have hred : DiskStorage.cleanupFuel maxSize (fuel + 1) s = s := by
        rw [DiskStorage.cleanupFuel, if_neg hgt]
      rw [hred]
      exact ⟨hWF, rfl, Or.inl (le_of_not_lt hgt), 0, by simp,
        fun hgt2 _ => absurd hgt2 hgt⟩

/-- Closed form of the disk insert phase when the id is new. -/
theorem DiskStorage.disk_writeInsert_eq_none (s : DiskStorage) (id data : String)
    (type : StorageKind) (now : Nat) (hfind : mapFind? s.entries id = none) :
    s.writeInsert id data type now =
      { s with entries := mapSet s.entries id
                 { id := id,
                   filePath := (match type with
                     | .data => s.dataDir
                     | .events => s.eventsDir) ++ "/" ++ DiskStorage.generateFilename id type,
                   size := data.length, createdAt := now },
               entriesByTime := s.entriesByTime ++ [(id, now)],
               currentSize := s.currentSize + data.length } := by
  simp only [DiskStorage.writeInsert, hfind]

/-- Closed form of the disk insert phase when a prior entry with the same
id exists at sequence index `i`. -/
theorem DiskStorage.disk_writeInsert_eq_some (s : DiskStorage) (id data : String)
    (type : StorageKind) (now : Nat) {old : StorageEntry} {i : Nat}
    (hfind : mapFind? s.entries id = some old)
    (hi : findIndex (fun e => e.1 == id) s.entriesByTime = some i) :
    s.writeInsert id data type now =
      { s with entries := mapSet s.entries id
                 { id := id,
                   filePath := (match type with
                     | .data => s.dataDir
                     | .events => s.eventsDir) ++ "/" ++ DiskStorage.generateFilename id type,
                   size := data.length, createdAt := now },
               entriesByTime := removeAt s.entriesByTime i ++ [(id, now)],
               currentSize := s.currentSize - old.size + data.length } := by
  simp only [DiskStorage.writeInsert, hfind, hi]

/-- The disk insert phase preserves well-formedness, keeps the quota
field and leaves a non-empty sequence. -/
theorem DiskStorage.disk_writeInsert_spec (s : DiskStorage) (id data : String)
    (type : StorageKind) (now : Nat) (hWF : s.WF) :
    (s.writeInsert id data type now).WF ∧
    (s.writeInsert id data type now).maxSize = s.maxSize ∧
    (s.writeInsert id data type now).entriesByTime ≠ [] := by
  obtain ⟨hnd, hperm, hsum⟩ := hWF
  cases hfind : mapFind? s.entries id with
  | none =>
    have hnm : id ∉ keysOf s.entries := mapFind?_eq_none_iff.mp hfind
    rw [DiskStorage.disk_writeInsert_eq_none s id data type now hfind]
    refine ⟨⟨?_, ?_, ?_⟩, rfl, by simp⟩
    · rw [keysOf_mapSet_none _ hfind]
      simp [List.nodup_append, hnd, hnm]
    · rw [keysOf_mapSet_none _ hfind, keysOf_append, keysOf_singleton]
      exact hperm.append_right [id]
    · rw [sizeSumBy_mapSet_none _ _ hfind, ← hsum]
  | some old =>
    have hmem : id ∈ keysOf s.entries := by
      by_contra hmem
      rw [mapFind?_eq_none_iff.mpr hmem] at hfind
      exact Option.noConfusion hfind
    have hmemT : id ∈ keysOf s.entriesByTime := hperm.mem_iff.mpr hmem
    obtain ⟨i, hi⟩ := findIndex_mem_keys hmemT
    rw [DiskStorage.disk_writeInsert_eq_some s id data type now hfind hi]
    refine ⟨⟨?_, ?_, ?_⟩, rfl, by simp⟩
    · rw [keysOf_mapSet_some _ hfind]
      exact hnd
    · rw [keysOf_mapSet_some _ hfind, keysOf_append, keysOf_singleton,
        keysOf_removeAt_findIndex hi]
      have p1 : ((keysOf s.entriesByTime).erase id ++ [id]).Perm
          ((keysOf s.entries).erase id ++ [id]) := (hperm.erase id).append_right [id]
      have p2 : ((keysOf s.entries).erase id ++ [id]).Perm
          (id :: (keysOf s.entries).erase id) := List.perm_append_singleton id _
      have p3 : (id :: (keysOf s.entries).erase id).Perm (keysOf s.entries) :=
        (List.perm_cons_erase hmem).symm
      exact (p1.trans p2).trans p3
    · rw [sizeSumBy_mapSet_some _ _ hfind, ← hsum]

/-- Claim C2 core for the disk backend: a write from a well-formed state
yields a well-formed state whose tracked size fits the quota, and whose
sequence is the inserted sequence minus a front (oldest-first) segment,
non-trivial whenever the insert overshot the quota. -/
theorem DiskStorage.disk_write_spec (s : DiskStorage) (id data : String)
    (type : StorageKind) (now : Nat) (hWF : s.WF) :
    (s.write id data type now).WF ∧
    (s.write id data type now).currentSize ≤ (s.maxSize : Int) ∧
    ∃ kdrop, (s.write id data type now).entriesByTime
        = (s.writeInsert id data type now).entriesByTime.drop kdrop ∧
      ((s.writeInsert id data type now).currentSize > (s.maxSize : Int) → 1 ≤ kdrop) := by
  have hins := DiskStorage.disk_writeInsert_spec s id data type now hWF
  have hmax := hins.2.1
  unfold DiskStorage.write
  by_cases hgt : (s.writeInsert id data type now).currentSize
      > ((s.writeInsert id data type now).maxSize : Int)
  · rw [if_pos hgt]
    unfold DiskStorage.cleanup
    have h := DiskStorage.disk_cleanupFuel_spec
      ((s.writeInsert id data type now).maxSize : Int)
      (s.writeInsert id data type now).entriesByTime.length
      (s.writeInsert id data type now) hins.1 le_rfl
    refine ⟨h.1, ?_, ?_⟩
    · rcases h.2.2.1 with hle | hnil
      · exact hle.trans_eq (by rw [hmax])
      · rw [DiskStorage.disk_WF_size_eq_zero h.1 hnil]
        exact Int.natCast_nonneg _
    · obtain ⟨k, hk, hcond⟩ := h.2.2.2
      exact ⟨k, hk, fun _ => hcond hgt hins.2.2⟩
  · rw [if_neg hgt]
    rw [hmax] at hgt
    exact ⟨hins.1, le_of_not_lt hgt, 0, by simp, fun h2 => absurd h2 hgt⟩

/-- Deletion preserves well-formedness on the memory backend. -/
theorem MemoryStorage.mem_delete_WF (s : MemoryStorage) (id : String) (hWF : s.WF) :
    (s.delete id).WF := by
  cases hfind : mapFind? s.entries id with
  | none =>
    rw [MemoryStorage.mem_delete_absent hfind]
    exact hWF
  | some e => exact (MemoryStorage.mem_delete_spec hWF hfind).1

/-- Deletion preserves well-formedness on the disk backend. -/
theorem DiskStorage.disk_delete_WF (s : DiskStorage) (id : String) (hWF : s.WF) :
    (s.delete id).WF := by
  cases hfind : mapFind? s.entries id with
  | none =>
    rw [DiskStorage.disk_delete_absent hfind]
    exact hWF
  | some e => exact (DiskStorage.disk_delete_spec hWF hfind).1

/-- A fresh memory spool is well-formed. -/
theorem MemoryStorage.empty_WF (m : Nat) : (MemoryStorage.empty m).WF :=
  ⟨List.nodup_nil, List.Perm.refl _, rfl⟩

/-- A fresh disk spool is well-formed. -/
theorem DiskStorage.create_WF (dir : String) (m : Nat) :
    (DiskStorage.create dir m).WF :=
  ⟨List.nodup_nil, List.Perm.refl _, rfl⟩

/-- Claim C2: on either backend, well-formedness (distinct tracked ids,
`entriesByTime` holding exactly the tracked ids, tracked size equal to
the sum of entry sizes) holds initially and is preserved by `write` and
`delete`; after any completed `write` the tracked spool size is at most
the configured quota; and the eviction a quota-exceeding write triggers
removes entries from the front of the insertion-ordered sequence —
oldest first — so the post-write sequence drops a front segment of the
inserted sequence, non-empty exactly when the write overshot the quota,
making the oldest entry the first deleted. -/
theorem c2_spool_quota_fifo :
    ((∀ m : Nat, (MemoryStorage.empty m).WF) ∧
     (∀ (s : MemoryStorage) (id data : String) (now : Nat), s.WF →
       (s.write id data now).WF) ∧
     (∀ (s : MemoryStorage) (id : String), s.WF → (s.delete id).WF) ∧
     (∀ (s : MemoryStorage) (id data : String) (now : Nat), s.WF →
       (s.write id data now).currentSize ≤ (s.maxSize : Int)) ∧
     (∀ (s : MemoryStorage) (id data : String) (now : Nat), s.WF →
       ∃ kdrop, (s.write id data now).entriesByTime
           = (s.writeInsert id data now).entriesByTime.drop kdrop ∧
         ((s.writeInsert id data now).currentSize > (s.maxSize : Int) → 1 ≤ kdrop))) ∧
    ((∀ (dir : String) (m : Nat), (DiskStorage.create dir m).WF) ∧
     (∀ (s : DiskStorage) (id data : String) (type : StorageKind) (now : Nat), s.WF →
       (s.write id data type now).WF) ∧
     (∀ (s : DiskStorage) (id : String), s.WF → (s.delete id).WF) ∧
     (∀ (s : DiskStorage) (id data : String) (type : StorageKind) (now : Nat), s.WF →
       (s.write id data type now).currentSize ≤ (s.maxSize : Int)) ∧
     (∀ (s : DiskStorage) (id data : String) (type : StorageKind) (now : Nat), s.WF →
       ∃ kdrop, (s.write id data type now).entriesByTime
           = (s.writeInsert id data type now).entriesByTime.drop kdrop ∧
         ((s.writeInsert id data type now).currentSize > (s.maxSize : Int) → 1 ≤ kdrop))) :=
  ⟨⟨MemoryStorage.empty_WF,
    fun s id data now h => (MemoryStorage.mem_write_spec s id data now h).1,
    MemoryStorage.mem_delete_WF,
    fun s id data now h => (MemoryStorage.mem_write_spec s id data now h).2.1,
    fun s id data now h => (MemoryStorage.mem_write_spec s id data now h).2.2⟩,
   ⟨DiskStorage.create_WF,
    fun s id data type now h => (DiskStorage.disk_write_spec s id data type now h).1,
    DiskStorage.disk_delete_WF,
    fun s id data type now h => (DiskStorage.disk_write_spec s id data type now h).2.1,
    fun s id data type now h => (DiskStorage.disk_write_spec s id data type now h).2.2⟩⟩

/-- Claim C2, witness: concrete writes on both fresh backends with an
8-byte quota; the second write overshoots and the quota bound holds. -/
theorem c2_witness :
    ((MemoryStorage.empty 8).write "a" "12345" 0).currentSize ≤ ((8 : Nat) : Int) ∧
    ((((MemoryStorage.empty 8).write "a" "12345" 0).write "b" "67890" 1).currentSize
      ≤ (((MemoryStorage.empty 8).write "a" "12345" 0).maxSize : Int)) ∧
    ((DiskStorage.create "/tmp/xray" 8).write "a" "12345" StorageKind.data 0).currentSize
      ≤ ((8 : Nat) : Int) := by
  refine ⟨?_, ?_, ?_⟩
  · exact c2_spool_quota_fifo.1.2.2.2.1 (MemoryStorage.empty 8) "a" "12345" 0
      (MemoryStorage.empty_WF 8)
  · exact c2_spool_quota_fifo.1.2.2.2.1 ((MemoryStorage.empty 8).write "a" "12345" 0)
      "b" "67890" 1
      (c2_spool_quota_fifo.1.2.1 (MemoryStorage.empty 8) "a" "12345" 0
        (MemoryStorage.empty_WF 8))
  · exact c2_spool_quota_fifo.2.2.2.2.1 (DiskStorage.create "/tmp/xray" 8) "a" "12345"
      StorageKind.data 0 (DiskStorage.create_WF "/tmp/xray" 8)
